import Mathlib

/-!
Verification of the internet-yellow-pages crawlers
(src/iyp/crawlers/bgpkit/as2rel.py and src/iyp/crawlers/peeringdb/ix.py).

The crawler code under src/ is embedded shallowly below.  The external
Graph Store collaborator (the wikihandy / IYP libraries, which are part of
the repository but not under src/) is modelled from the specification
where its behaviour decides a claim; each such definition carries a doc
comment starting with the words: Modelled from the spec.
-/

/-! ## Generic association list and upsert machinery

The Graph Store statement/link writes are upserts: create-if-absent, else
update-in-place, keyed by (node, relation, target).  We develop the
machinery generically over a key function.
-/

def alookup {α β : Type} [DecidableEq α] : List (α × β) → α → Option β
  | [], _ => none
  | e :: t, k => if e.1 = k then some e.2 else alookup t k

def oor {α : Type} : Option α → Option α → Option α
  | some x, _ => some x
  | none, b => b

section UpsertBy

variable {α κ : Type} [DecidableEq κ]

/-- Modelled from the spec: replace-in-place every stored entry whose key
matches the key of the incoming entry. -/

def replaceAllBy (key : α → κ) (l : List α) (a : α) : List α :=
  l.map (fun x => if key x = key a then a else x)

/-- Modelled from the spec: upsert semantics of the Graph Store writes:
create-if-absent, else update-in-place, keyed by `key`. -/

def upsertBy (key : α → κ) : List α → α → List α
  | [], a => [a]
  | x :: xs, a => if key x = key a then a :: replaceAllBy key xs a else x :: upsertBy key xs a

/-- A sequence of upserts, in order. -/

def upsertAllBy (key : α → κ) (l : List α) (xs : List α) : List α :=
  xs.foldl (upsertBy key) l

def lookupBy (key : α → κ) : List α → κ → Option α
  | [], _ => none
  | x :: xs, k => if key x = k then some x else lookupBy key xs k

/-- The payload of the last entry of `xs` carrying key `k`, if any. -/

def lastBy (key : α → κ) (xs : List α) (k : κ) : Option α :=
  lookupBy key xs.reverse k

def keysBy (key : α → κ) (l : List α) : List κ := l.map key

/-- All stored entries whose key is `k`. -/

def entriesAtBy (key : α → κ) : List α → κ → List α
  | [], _ => []
  | x :: xs, k => if key x = k then x :: entriesAtBy key xs k else entriesAtBy key xs k

/-- Store well-formedness: no two stored entries share a key (the Graph
Store enforces identifier/statement uniqueness durably). -/

def WFBy (key : α → κ) (l : List α) : Prop := (keysBy key l).Nodup

end UpsertBy

/-! ## Data model shared by the crawlers

`Qid` is a Graph Store node identifier: well-known items resolved by
label, and items freshly created during a run (numbered by the store's
creation counter).  `Val` is a statement target: a node, a string
literal, or a point-in-time value (seconds since the epoch).
-/

inductive Qid : Type
  | label : String → Qid
  | item : Nat → Qid
deriving DecidableEq, Repr

inductive Val : Type
  | q : Qid → Val
  | s : String → Val
  | t : Nat → Val
deriving DecidableEq, Repr

/-- One claim of a reference or qualifier: a property label and a value. -/

abbrev RefClaim : Type := String × Val

/-- A statement as built by the crawlers: property, target, an optional
reference (absent ↔ the Python list had no reference element; `some []`
↔ an explicitly empty reference list), and qualifiers. -/

structure WStatement : Type where
  pid : String
  target : Val
  ref : Option (List RefClaim)
  quals : List RefClaim
deriving DecidableEq, Repr

/-- Upsert key of a stored statement: the node it is attached to plus the
(relation, target) pair, per the upsert contract in the spec. -/

def entryKey (e : Qid × WStatement) : Qid × String × Val :=
  (e.1, e.2.pid, e.2.target)

/-- Modelled from the spec: `Wikihandy.get_pid` resolves a property label
to its unique property ID; property labels stand for their PIDs here. -/

def get_pid (s : String) : String := s

/-- Modelled from the spec: `Wikihandy.get_qid` resolves a well-known item
label to its unique node ID. -/

def get_qid (s : String) : Qid := Qid.label s

/-- Day granularity truncation of a UTC timestamp in seconds, as performed
by `datetime.utcnow().replace(hour=0, minute=0, second=0, microsecond=0)`. -/

def startOfDay (t : Nat) : Nat := t - t % 86400

/-- Modelled from the spec: `Wikihandy.today()` returns the start of the
current day (UTC, midnight-truncated). -/

def wh_today (t : Nat) : Nat := startOfDay t

/-! ## PeeringDB exchange-point crawler (src/iyp/crawlers/peeringdb/ix.py) -/

def URL_PDB_IXS : String := "https://peeringdb.com/api/ix"

def URL_PDB_LAN : String := "https://peeringdb.com/api/ixlan"

def IXID_LABEL : String := "PeeringDB IX ID"

def ORGID_LABEL : String := "PeeringDB organization ID"

/-- A created item in the wikibase store: its node ID, the external-ID
namespace it was created under (modelling the external-ID qualifier
class), its external identifier, label, description, and its initial
statements from `add_item`. -/

structure Item : Type where
  qid : Qid
  ns : String
  extId : String
  label : String
  descr : String
  stmts : List WStatement
deriving DecidableEq, Repr

/-- The wikibase Graph Store state: the creation counter, the created
items, and the statements attached to nodes by `upsert_statements`. -/

structure WStore : Type where
  nextId : Nat
  items : List Item
  stmts : List (Qid × WStatement)
deriving DecidableEq, Repr

/-- Run-constant data fixed by `Crawler.__init__`: the preloaded
organization-ID cache, the country-code resolution map (modelled from the
spec: `country2qid`, lookup only, no creation), and `self.today`. -/

structure IxEnv : Type where
  orgid2qid : List (String × Qid)
  countryMap : List (String × Qid)
  today : Nat
deriving DecidableEq, Repr

/-- `Crawler.__init__` of the PeeringDB ix crawler: preloads the caches
and computes the shared timestamp once per run. -/

def mkIxEnv (orgs cmap : List (String × Qid)) (t0 : Nat) : IxEnv :=
  { orgid2qid := orgs, countryMap := cmap, today := wh_today t0 }

/-- `self.reference` of the ix crawler (ix.py lines 41-45). -/

def mainRef (env : IxEnv) : List RefClaim :=
  [ (get_pid "source", Val.q (get_qid "PeeringDB")),
    (get_pid "reference URL", Val.s URL_PDB_IXS),
    (get_pid "point in time", Val.t env.today) ]

/-- The per-LAN endpoint URL (ix.py line 113). -/

def pfxUrl (lanId : Nat) : String := URL_PDB_LAN ++ "/" ++ toString lanId

/-- `pfx_ref` of the ix crawler (ix.py lines 114-118): same source and
timestamp, LAN-specific reference URL. -/

def pfxRef (env : IxEnv) (lanId : Nat) : List RefClaim :=
  [ (get_pid "source", Val.q (get_qid "PeeringDB")),
    (get_pid "reference URL", Val.s (pfxUrl lanId)),
    (get_pid "point in time", Val.t env.today) ]

/-- One element of `ixpfx_set` is a prefix string; a LAN record carries a
list of them. -/

structure Lan : Type where
  ixpfx_set : List String
deriving DecidableEq, Repr

/-- One element of `ixlan_set`: its id, and the snapshot of the per-LAN
endpoint response data for that id. -/

structure IxLan : Type where
  id : Nat
  lans : List Lan
deriving DecidableEq, Repr

/-- A decoded exchange-point record (the per-IX detail response).
`ixlan_set = none` models a record without the `ixlan_set` key. -/

structure IxRecord : Type where
  id : Nat
  name : String
  name_long : String
  org_id : Nat
  country : String
  website : String
  url_stats : String
  ixlan_set : Option (List IxLan)
deriving DecidableEq, Repr

/-- The mutable state of one ix-crawler run: the store, the two
resolver caches (`self.ixid2qid` and the wikihandy prefix cache), and the
lines printed to the console. -/

structure IxState : Type where
  store : WStore
  ixid2qid : List (String × Qid)
  pfx2qid : List (String × Qid)
  log : List String
deriving DecidableEq, Repr

/-- Modelled from the spec: `Wikihandy.upsert_statements` applies each
statement of the list to the node with upsert write semantics. -/

def upsert_statements (s : IxState) (q : Qid) (l : List WStatement) : IxState :=
  { s with store := { s.store with
      stmts := upsertAllBy entryKey s.store.stmts (l.map (fun st => (q, st))) } }

/-- The initial statements of an IX item created by `Crawler.ix_qid`
(ix.py lines 147-153): the bare type assignment and the external-ID
statement with its explicitly empty reference and its qualifier. -/

def ixItemStmts (ix : IxRecord) : List WStatement :=
  [ ⟨get_pid "instance of", Val.q (get_qid "Internet exchange point"), none, []⟩,
    ⟨get_pid "external ID", Val.s (toString ix.id), some [],
      [(get_pid "instance of", Val.q (get_qid IXID_LABEL))]⟩ ]

/-- `Crawler.ix_qid` (ix.py lines 139-162): return the cached node for
this IX id, creating the item (with external-ID statement) on a miss. -/

def ix_qid (s : IxState) (ix : IxRecord) : Qid × IxState :=
  match alookup s.ixid2qid (toString ix.id) with
  | some q => (q, s)
  | none =>
      let q := Qid.item s.store.nextId
      let store := { nextId := s.store.nextId + 1,
                     items := s.store.items ++
                       [⟨q, "ix", toString ix.id, ix.name, ix.name_long, ixItemStmts ix⟩],
                     stmts := s.store.stmts }
      (q, { s with store := store, ixid2qid := s.ixid2qid ++ [(toString ix.id, q)] })

/-- Modelled from the spec: `Wikihandy.prefix2qid` with `create=True` —
look up the in-memory cache, then the store, then create a node tagged
with the prefix. -/

def prefix2qid (s : IxState) (p : String) : Qid × IxState :=
  match alookup s.pfx2qid p with
  | some q => (q, s)
  | none =>
      match alookup (s.store.items.map (fun it => ((it.ns, it.extId), it.qid))) ("prefix", p) with
      | some q => (q, { s with pfx2qid := s.pfx2qid ++ [(p, q)] })
      | none =>
          let q := Qid.item s.store.nextId
          let store := { nextId := s.store.nextId + 1,
                         items := s.store.items ++ [⟨q, "prefix", p, p, "", []⟩],
                         stmts := s.store.stmts }
          (q, { s with store := store, pfx2qid := s.pfx2qid ++ [(p, q)] })

/-- The optional organization link (ix.py lines 81-86; empty when the
organization id is not in the preloaded cache). -/

def orgStmts (env : IxEnv) (ix : IxRecord) : List WStatement :=
  match alookup env.orgid2qid (toString ix.org_id) with
  | some org_qid => [⟨get_pid "managed by", Val.q org_qid, some (mainRef env), []⟩]
  | none => []

/-- The optional country link (ix.py lines 88-92; empty when the country
field is empty or the code does not resolve to a node). -/
def countryStmts (env : IxEnv) (ix : IxRecord) : List WStatement :=
  if ix.country ≠ "" then
    match alookup env.countryMap ix.country with
    | some country_qid => [⟨get_pid "country", Val.q country_qid, some (mainRef env), []⟩]
    | none => []
  else []

/-- The optional website statement (ix.py lines 94-96). -/
def websiteStmts (env : IxEnv) (ix : IxRecord) : List WStatement :=
  if ix.website ≠ "" then
    [⟨get_pid "website", Val.s ix.website, some (mainRef env), []⟩]
  else []

/-- The optional qualified traffic-statistics website statement
(ix.py lines 98-104). -/
def statsStmts (env : IxEnv) (ix : IxRecord) : List WStatement :=
  if ix.url_stats ≠ "" then
    [⟨get_pid "website", Val.s ix.url_stats, some (mainRef env),
      [(get_pid "instance of", Val.q (get_qid "traffic statistics"))]⟩]
  else []

/-- The statement list built by `Crawler.update_ix` for the IX node
(ix.py lines 77-104), in construction order: the type assignment and the
name, then the conditionally appended organization, country, website and
traffic-statistics statements. -/
def ixStatements (env : IxEnv) (ix : IxRecord) : List WStatement :=
  [ ⟨get_pid "instance of", Val.q (get_qid "Internet exchange point"), none, []⟩,
    ⟨get_pid "name", Val.s ix.name.trim, some (mainRef env), []⟩ ] ++
  orgStmts env ix ++ countryStmts env ix ++ websiteStmts env ix ++ statsStmts env ix

/-- The console line printed when the organization is not in the wikibase
(ix.py line 86). -/

def orgWarn (orgId : Nat) : String :=
  "Error this organization is not in wikibase:  " ++ toString orgId

/-- The two statements attached to a peering-LAN prefix node
(ix.py lines 129-132). -/

def pfxStmts (env : IxEnv) (lanId : Nat) (ixq : Qid) : List WStatement :=
  [ ⟨get_pid "instance of", Val.q (get_qid "peering LAN"), some (pfxRef env lanId), []⟩,
    ⟨get_pid "managed by", Val.q ixq, some (pfxRef env lanId), []⟩ ]

/-- Processing of one prefix inside the LAN loop (ix.py lines 126-134). -/

def doPfx (env : IxEnv) (lanId : Nat) (ixq : Qid) (s : IxState) (p : String) : IxState :=
  let r := prefix2qid s p
  upsert_statements r.2 r.1 (pfxStmts env lanId ixq)

/-- `Crawler.update_ix` (ix.py lines 72-136): build the statement set,
report a missing organization, resolve/create the IX node, upsert, then
walk the LAN records.  Returns the IX node id and the new state. -/

def update_ix (env : IxEnv) (s : IxState) (ix : IxRecord) : Qid × IxState :=
  let statements := ixStatements env ix
  let s := if (alookup env.orgid2qid (toString ix.org_id)).isNone
           then { s with log := s.log ++ [orgWarn ix.org_id] } else s
  let r := ix_qid s ix
  let ixq := r.1
  let s := upsert_statements r.2 ixq statements
  let s := match ix.ixlan_set with
    | none => s
    | some ixlans =>
        ixlans.foldl (fun s ixlan =>
          ixlan.lans.foldl (fun s lan =>
            lan.ixpfx_set.foldl (doPfx env ixlan.id ixq) s) s) s
  (ixq, s)

/-- The record loop of `Crawler.run` (ix.py lines 58-69), with the
snapshot of the paginated responses already decoded into the records. -/

def runIx (env : IxEnv) (s : IxState) (recs : List IxRecord) : IxState :=
  recs.foldl (fun s r => (update_ix env s r).2) s

/-- The (lan id, prefix) pairs walked by the LAN loop of `update_ix`, in
iteration order. -/

def flatPairs (ix : IxRecord) : List (Nat × String) :=
  (ix.ixlan_set.getD []).flatMap (fun ixlan =>
    ixlan.lans.flatMap (fun lan => lan.ixpfx_set.map (fun p => (ixlan.id, p))))

/-- The IX node id of a record as recorded in the resolver cache. -/

def qOf (s : IxState) (ix : IxRecord) : Qid :=
  (alookup s.ixid2qid (toString ix.id)).getD (Qid.item 0)

/-- The prefix node id of a prefix as recorded in the resolver cache. -/

def pOf (s : IxState) (p : String) : Qid :=
  (alookup s.pfx2qid p).getD (Qid.item 0)

/-- The ordered list of (node, statement) writes submitted for one record,
expressed through the caches of a state that covers the record. -/

def recEntries (env : IxEnv) (s : IxState) (ix : IxRecord) : List (Qid × WStatement) :=
  (ixStatements env ix).map (fun st => (qOf s ix, st)) ++
    (flatPairs ix).flatMap (fun pr =>
      (pfxStmts env pr.1 (qOf s ix)).map (fun st => (pOf s pr.2, st)))

/-- The ordered list of writes submitted for a record list. -/

def allEntries (env : IxEnv) (s : IxState) (recs : List IxRecord) : List (Qid × WStatement) :=
  recs.flatMap (recEntries env s)

/-- An empty wikibase and empty caches. -/

def initIxState : IxState :=
  { store := { nextId := 0, items := [], stmts := [] }, ixid2qid := [], pfx2qid := [], log := [] }

/-! ## BGPKIT AS-relationship crawler (src/iyp/crawlers/bgpkit/as2rel.py) -/

def URL_BGPKIT_AS2REL : String := "https://data.bgpkit.com/as2rel/as2rel-latest.json.bz2"

/-- `self.reference` of the as2rel crawler: a dictionary with exactly the
three provenance keys (as2rel.py lines 17-22). -/

structure AsRef : Type where
  source : String
  reference_url : String
  point_in_time : Nat
deriving DecidableEq, Repr

/-- `Crawler.__init__` of the as2rel crawler, run at time `t0` (seconds
since the epoch): the reference is computed once, midnight-truncated. -/

def mkAsReference (t0 : Nat) : AsRef :=
  { source := "BGPKIT", reference_url := URL_BGPKIT_AS2REL,
    point_in_time := startOfDay t0 }

/-- One decoded AS-relationship record. -/

structure AsRel : Type where
  asn1 : Nat
  asn2 : Nat
deriving DecidableEq, Repr

/-- A node of the IYP store, with its type tag and its `asn` property. -/

structure AsNode : Type where
  qid : Qid
  typ : String
  asn : Nat
deriving DecidableEq, Repr

/-- A directed, referenced link of the IYP store. -/

structure Link : Type where
  src : Qid
  rel : String
  tgt : Qid
  ref : AsRef
deriving DecidableEq, Repr

/-- Upsert key of a link: source node, relation, target node. -/

def linkKey (l : Link) : Qid × String × Qid := (l.src, l.rel, l.tgt)

/-- The IYP Graph Store state plus the resolver cache for the single
namespace (`asn`) used by this crawler. -/

structure IypState : Type where
  nextId : Nat
  nodes : List AsNode
  links : List Link
  cache : List (Nat × Qid)
deriving DecidableEq, Repr

def findNode (nodes : List AsNode) (typ : String) (asn : Nat) : Option Qid :=
  alookup (nodes.map (fun n => ((n.typ, n.asn), n.qid))) (typ, asn)

/-- Modelled from the spec: `IYP.get_node(type, {asn: v}, create=True)` —
look up the in-memory cache, then query the store, else create a node
tagged with the identifier and node type. -/

def get_node (s : IypState) (typ : String) (asn : Nat) : Qid × IypState :=
  match alookup s.cache asn with
  | some q => (q, s)
  | none =>
      match findNode s.nodes typ asn with
      | some q => (q, { s with cache := s.cache ++ [(asn, q)] })
      | none =>
          let q := Qid.item s.nextId
          (q, { nextId := s.nextId + 1,
                nodes := s.nodes ++ [⟨q, typ, asn⟩],
                links := s.links,
                cache := s.cache ++ [(asn, q)] })

/-- Modelled from the spec: `IYP.add_links` submits each (relation,
target, reference) statement for the node with upsert write semantics. -/

def add_links (s : IypState) (q : Qid) (stmts : List (String × Qid × AsRef)) : IypState :=
  { s with links :=
      upsertAllBy linkKey s.links (stmts.map (fun st => ⟨q, st.1, st.2.1, st.2.2⟩)) }

/-- `Crawler.update_asn` (as2rel.py lines 41-57): resolve/create both AS
nodes, attach one PEERS_WITH statement to the first, return both ids. -/

def update_asn (ref : AsRef) (s : IypState) (rel : AsRel) : (Qid × Qid) × IypState :=
  let r1 := get_node s "AS" rel.asn1
  let r2 := get_node r1.2 "AS" rel.asn2
  let statements : List (String × Qid × AsRef) := [("PEERS_WITH", r2.1, ref)]
  let s3 := add_links r2.2 r1.1 statements
  ((r1.1, r2.1), s3)

/-- The record loop of the as2rel `Crawler.run` (as2rel.py line 35), with
the snapshot of the fetched document already decoded. -/

def runAs (ref : AsRef) (s : IypState) (rels : List AsRel) : IypState :=
  rels.foldl (fun s r => (update_asn ref s r).2) s

/-- What an asn resolves to without creating anything: the cache, then
the store. -/

def resolvedQid (s : IypState) (asn : Nat) : Option Qid :=
  oor (alookup s.cache asn) (findNode s.nodes "AS" asn)

/-- `q` is an item id allocated strictly before counter value `n`. -/

def qidFresh (q : Qid) (n : Nat) : Bool :=
  match q with
  | Qid.item k => decide (k < n)
  | Qid.label _ => false

/-- Invariant of the IYP state: every resolvable node id was allocated
below the creation counter, and distinct ASNs resolve to distinct
nodes. -/

def InvAs (s : IypState) : Prop :=
  (∀ a q, resolvedQid s a = some q → qidFresh q s.nextId = true) ∧
  (∀ a b qa qb, resolvedQid s a = some qa → resolvedQid s b = some qb → a ≠ b → qa ≠ qb)

/-- An empty IYP store and cache. -/

def initIyp : IypState := { nextId := 0, nodes := [], links := [], cache := [] }

/-- The cache entry a record list leaves for an asn, used to express the
writes of a run through the final cache. -/

def aOf (s : IypState) (asn : Nat) : Qid := (alookup s.cache asn).getD (Qid.item 0)

/-- The single link written for one AS-relationship record, expressed
through the cache of a state that covers the record. -/

def relEntries (ref : AsRef) (s : IypState) (rel : AsRel) : List Link :=
  [⟨aOf s rel.asn1, "PEERS_WITH", aOf s rel.asn2, ref⟩]

/-- The ordered list of link writes submitted for a record list. -/

def allRelEntries (ref : AsRef) (s : IypState) (rels : List AsRel) : List Link :=
  rels.flatMap (relEntries ref s)

/-! ## Control-flow models of the run drivers

The following definitions model only the abort/continue control flow of
`run` and the exception handling around the store writes; statement
payloads do not affect that flow and are omitted here.  A `fetchExit`
abort is `sys.exit` on a non-200 fetch status; an `uncaught` abort is an
exception raised by a store write and propagated out of the record loop
(ix.py has no handler around `upsert_statements`).
-/

inductive IxAbort : Type
  | fetchExit : IxAbort
  | uncaught : IxAbort
deriving DecidableEq, Repr

/-- Control-flow snapshot of one exchange-point record: the HTTP status
of its per-IX detail fetch, whether its `upsert_statements` call raises
(injected store-write error), and the HTTP statuses of its per-LAN
fetches in iteration order. -/

structure IxFRec : Type where
  detailStatus : Nat
  failSubmit : Bool
  lanStatuses : List Nat
deriving DecidableEq, Repr

/-- Control flow of `Crawler.update_ix` for one record: the main
statement submission happens first (ix.py line 108), then each per-LAN
fetch is checked (ix.py lines 120-122). -/

def update_ixF (r : IxFRec) : Option IxAbort :=
  match r.failSubmit with
  | true => some IxAbort.uncaught
  | false =>
      match r.lanStatuses.all (fun st => st == 200) with
      | true => none
      | false => some IxAbort.fetchExit

/-- The record loop of the ix `Crawler.run`: the per-IX detail fetch is
checked (ix.py lines 61-63) and the record is processed; an abort ends
the run, carrying the number of records fully processed before it. -/

def runIxFGo (done : Nat) : List IxFRec → Except (IxAbort × Nat) Nat
  | [] => Except.ok done
  | r :: rs =>
      if r.detailStatus ≠ 200 then Except.error (IxAbort.fetchExit, done)
      else
        match update_ixF r with
        | some a => Except.error (a, done)
        | none => runIxFGo (done + 1) rs

/-- `Crawler.run` of the ix crawler: the list fetch is checked first
(ix.py lines 51-53), then the records are iterated. -/

def runIxF (listStatus : Nat) (recs : List IxFRec) : Except (IxAbort × Nat) Nat :=
  if listStatus ≠ 200 then Except.error (IxAbort.fetchExit, 0)
  else runIxFGo 0 recs

/-- Control-flow output of an as2rel run: records processed to completion,
records whose `add_links` raised and was caught and reported
(as2rel.py lines 48-55), and records whose link write succeeded. -/

structure AsOut : Type where
  processed : Nat
  errored : List AsRel
  linked : List AsRel
deriving DecidableEq, Repr

/-- Control flow of `Crawler.update_asn`: the try block wraps only
`add_links`; an error is printed and the loop continues. -/

def update_asnF (failNow : Bool) (o : AsOut) (rel : AsRel) : AsOut :=
  match failNow with
  | true => { processed := o.processed + 1, errored := o.errored ++ [rel], linked := o.linked }
  | false => { processed := o.processed + 1, errored := o.errored, linked := o.linked ++ [rel] }

/-- Record loop of the as2rel run with no store-write error. -/

def runAsOk (o : AsOut) : List AsRel → AsOut
  | [] => o
  | r :: rs => runAsOk (update_asnF false o r) rs

/-- Record loop of the as2rel run in which the `add_links` call of the
record at (0-based) index `k` raises a store-write error. -/

def runAsFGo (k : Nat) (o : AsOut) : List AsRel → AsOut
  | [] => o
  | r :: rs =>
      match k with
      | 0 => runAsOk (update_asnF true o r) rs
      | k' + 1 => runAsFGo k' (update_asnF false o r) rs

/-- The as2rel run with a store-write error injected at record `k`. -/

def runAsF (k : Nat) (rels : List AsRel) : AsOut :=
  runAsFGo k { processed := 0, errored := [], linked := [] } rels

/-- `Crawler.run` of the as2rel crawler: the dataset fetch status is
checked first (as2rel.py lines 31-33), then the records are iterated. -/

def runAsDriverF (status : Nat) (k : Nat) (rels : List AsRel) : Except Unit AsOut :=
  if status ≠ 200 then Except.error ()
  else Except.ok (runAsF k rels)

/-- An HTTP status in the 2xx success range. -/

def is2xx (st : Nat) : Bool := decide (200 ≤ st) && decide (st < 300)

/-- The kind of store-write error injected while processing one as2rel
record: no error, an error raised by one of the `get_node` calls (node
creation, as2rel.py lines 42-43, outside the try block), or an error
raised by `add_links` (statement submission, line 50, inside the try
block). -/
inductive AsFail : Type
  | ok : AsFail
  | createRaises : AsFail
  | submitRaises : AsFail
deriving DecidableEq, Repr

/-- Control flow of `Crawler.update_asn` with an injected store-write
error: the `get_node` calls run before and outside the try block, so a
node-creation error propagates uncaught; the try block wraps only
`add_links`, whose error is printed and swallowed (as2rel.py
lines 41-57). -/
def update_asnE (f : AsFail) (o : AsOut) (rel : AsRel) : Except AsOut AsOut :=
  match f with
  | AsFail.createRaises => Except.error o
  | AsFail.submitRaises =>
      Except.ok { processed := o.processed + 1, errored := o.errored ++ [rel], linked := o.linked }
  | AsFail.ok =>
      Except.ok { processed := o.processed + 1, errored := o.errored, linked := o.linked ++ [rel] }

/-- Record loop of the as2rel run in which processing the record at
(0-based) index `k` raises the given store-write error; an uncaught
error ends the run, carrying the output accumulated so far. -/
def runAsEGo (k : Nat) (f : AsFail) (o : AsOut) : List AsRel → Except AsOut AsOut
  | [] => Except.ok o
  | r :: rs =>
      match k with
      | 0 =>
          match update_asnE f o r with
          | Except.error x => Except.error x
          | Except.ok x => Except.ok (runAsOk x rs)
      | k' + 1 => runAsEGo k' f (update_asnF false o r) rs

/-- The as2rel record loop with the given store-write error injected at
record `k`. -/
def runAsE (k : Nat) (f : AsFail) (rels : List AsRel) : Except AsOut AsOut :=
  runAsEGo k f { processed := 0, errored := [], linked := [] } rels

/-- The LAN loop of `update_ix`, flattened over (lan id, prefix) pairs. -/
def pairsFold (env : IxEnv) (ixq : Qid) (s : IxState) (pairs : List (Nat × String)) : IxState :=
  pairs.foldl (fun s pr => doPfx env pr.1 ixq s pr.2) s

/-- The resolver caches of the second state contain every binding of the
first. -/
def cacheLe (s s' : IxState) : Prop :=
  (∀ k v, alookup s.ixid2qid k = some v → alookup s'.ixid2qid k = some v) ∧
  (∀ k v, alookup s.pfx2qid k = some v → alookup s'.pfx2qid k = some v)

/-- The caches of `s` already resolve the IX id of a record and every
prefix of its LAN records. -/
def coveredRec (s : IxState) (ix : IxRecord) : Prop :=
  (alookup s.ixid2qid (toString ix.id)).isSome = true ∧
  ∀ pr ∈ flatPairs ix, (alookup s.pfx2qid pr.2).isSome = true

/-- The console lines `update_ix` prints for a record. -/
def warnDelta (env : IxEnv) (ix : IxRecord) : List String :=
  if (alookup env.orgid2qid (toString ix.org_id)).isNone then [orgWarn ix.org_id] else []

/-- Does a reference claim list name property `p`? -/
def hasRefClaim (r : List RefClaim) (p : String) : Bool :=
  r.any (fun c => decide (c.1 = p))

/-- A statement whose reference, when present and nonempty, carries
exactly the shared point-in-time value `today`. -/
def pitOk (today : Nat) (st : WStatement) : Bool :=
  match st.ref with
  | none => true
  | some [] => true
  | some r => r.any (fun c => decide (c = (get_pid "point in time", Val.t today)))

/-- A statement carrying a reference that names `point in time` at all. -/
def stmtHasPit (st : WStatement) : Bool :=
  match st.ref with
  | none => false
  | some r => hasRefClaim r (get_pid "point in time")

/-- A statement carrying a full provenance reference {source, reference
URL, point in time}. -/
def stmtProvenanced (st : WStatement) : Bool :=
  match st.ref with
  | none => false
  | some r => hasRefClaim r (get_pid "source") && hasRefClaim r (get_pid "reference URL") &&
      hasRefClaim r (get_pid "point in time")

/-- The statements exempted by the amended provenance claim: the bare
type assignment of the IX node and the external-ID statement. -/
def provExempt (st : WStatement) : Bool :=
  (decide (st.pid = get_pid "instance of") &&
    decide (st.target = Val.q (get_qid "Internet exchange point"))) ||
  decide (st.pid = get_pid "external ID")

/-- Both ASNs of a record are already in the resolver cache. -/
def coveredRel (s : IypState) (rel : AsRel) : Prop :=
  (alookup s.cache rel.asn1).isSome = true ∧ (alookup s.cache rel.asn2).isSome = true

/-- The cache of the second IYP state contains every binding of the
first. -/
def cacheLeAs (s s' : IypState) : Prop :=
  ∀ k v, alookup s.cache k = some v → alookup s'.cache k = some v

/-- The links attached to a given source node. -/
def srcLinks (links : List Link) (q : Qid) : List Link :=
  links.filter (fun l => decide (l.src = q))

/-- A control-flow record whose fetches succeed and whose statement
submission does not raise. -/
def okRec (r : IxFRec) : Prop :=
  r.detailStatus = 200 ∧ r.failSubmit = false ∧ ∀ st ∈ r.lanStatuses, st = 200

/-- A concrete exchange-point record used for concrete evaluations. -/
def ixA : IxRecord :=
  { id := 7, name := "AMS-IX", name_long := "Amsterdam Internet Exchange",
    org_id := 3, country := "NL", website := "https://www.ams-ix.net", url_stats := "",
    ixlan_set := some [{ id := 11, lans := [{ ixpfx_set := ["80.249.208.0/21"] }] }] }

/-- A second concrete exchange-point record. -/
def ixB : IxRecord :=
  { id := 31, name := "DE-CIX", name_long := "DE-CIX Frankfurt",
    org_id := 8, country := "DE", website := "", url_stats := "",
    ixlan_set := none }

/-- A concrete environment with one organization and one country. -/
def envA : IxEnv :=
  mkIxEnv [("3", Qid.label "orgA")] [("NL", Qid.label "Netherlands")] 100000

/-! ## Theorems

Everything below is a proof about the definitions above; no further
definitions appear past the sentinel marker here. -/

theorem oor_assoc {α : Type} (a b c : Option α) : oor (oor a b) c = oor a (oor b c) := by
  cases a <;> rfl

theorem oor_self_absorb {α : Type} (a b : Option α) : oor a (oor a b) = oor a b := by
  cases a <;> rfl

theorem alookup_append {α β : Type} [DecidableEq α] (l l' : List (α × β)) (k : α) :
    alookup (l ++ l') k = oor (alookup l k) (alookup l' k) := by
  induction l with
  | nil => rfl
  | cons e t ih =>
      simp only [List.cons_append, alookup]
      by_cases h : e.1 = k
      · simp only [h, if_pos rfl]; rfl
      · simp only [if_neg h]; exact ih

theorem alookup_append_of_some {α β : Type} [DecidableEq α] {l : List (α × β)} {k : α}
    {v : β} (l' : List (α × β)) (h : alookup l k = some v) :
    alookup (l ++ l') k = some v := by
  rw [alookup_append, h]; rfl

theorem alookup_append_single_ne {α β : Type} [DecidableEq α] (l : List (α × β)) {a k : α}
    (b : β) (h : a ≠ k) : alookup (l ++ [(a, b)]) k = alookup l k := by
  rw [alookup_append]
  simp only [alookup, if_neg h]
  cases alookup l k <;> rfl

theorem alookup_append_single_self {α β : Type} [DecidableEq α] {l : List (α × β)} {a : α}
    (b : β) (h : alookup l a = none) : alookup (l ++ [(a, b)]) a = some b := by
  rw [alookup_append, h]
  simp [alookup, oor]

section UpsertByLemmas

variable {α κ : Type} [DecidableEq κ]

theorem lookupBy_append (key : α → κ) (l l' : List α) (k : κ) :
    lookupBy key (l ++ l') k = oor (lookupBy key l k) (lookupBy key l' k) := by
  induction l with
  | nil => rfl
  | cons x xs ih =>
      simp only [List.cons_append, lookupBy]
      by_cases h : key x = k
      · simp only [if_pos h]; rfl
      · simp only [if_neg h]; exact ih

theorem keysBy_replaceAllBy (key : α → κ) (l : List α) (a : α) :
    keysBy key (replaceAllBy key l a) = keysBy key l := by
  induction l with
  | nil => rfl
  | cons x xs ih =>
      simp only [replaceAllBy, keysBy, List.map_cons] at *
      by_cases h : key x = key a
      · simp only [if_pos h, ih]
        rw [h]
      · simp only [if_neg h, ih]

theorem lookupBy_replaceAllBy_ne (key : α → κ) (l : List α) (a : α) {k : κ}
    (h : k ≠ key a) : lookupBy key (replaceAllBy key l a) k = lookupBy key l k := by
  induction l with
  | nil => rfl
  | cons x xs ih =>
      simp only [replaceAllBy, List.map_cons, lookupBy] at *
      by_cases hx : key x = key a
      · have h1 : ¬ (key a = k) := fun hh => h hh.symm
        have h2 : ¬ (key x = k) := by rw [hx]; exact h1
        simp only [if_pos hx, lookupBy, if_neg h1, if_neg h2]
        exact ih
      · simp only [if_neg hx, lookupBy]
        by_cases hk : key x = k
        · simp only [if_pos hk]
        · simp only [if_neg hk]; exact ih

theorem mem_replaceAllBy (key : α → κ) {l : List α} {a y : α}
    (h : y ∈ replaceAllBy key l a) : y = a ∨ y ∈ l := by
  induction l with
  | nil => simp [replaceAllBy] at h
  | cons x xs ih =>
      simp only [replaceAllBy, List.map_cons, List.mem_cons] at h
      rcases h with h | h
      · by_cases hx : key x = key a
        · simp only [if_pos hx] at h; exact Or.inl h
        · simp only [if_neg hx] at h; exact Or.inr (by simp [h])
      · rcases ih h with h' | h'
        · exact Or.inl h'
        · exact Or.inr (List.mem_cons_of_mem _ h')

theorem mem_upsertBy (key : α → κ) {l : List α} {a y : α}
    (h : y ∈ upsertBy key l a) : y = a ∨ y ∈ l := by
  induction l with
  | nil => simp [upsertBy] at h; exact Or.inl h
  | cons x xs ih =>
      simp only [upsertBy] at h
      by_cases hx : key x = key a
      · simp only [if_pos hx, List.mem_cons] at h
        rcases h with h | h
        · exact Or.inl h
        · rcases mem_replaceAllBy key h with h' | h'
          · exact Or.inl h'
          · exact Or.inr (List.mem_cons_of_mem _ h')
      · simp only [if_neg hx, List.mem_cons] at h
        rcases h with h | h
        · exact Or.inr (by simp [h])
        · rcases ih h with h' | h'
          · exact Or.inl h'
          · exact Or.inr (List.mem_cons_of_mem _ h')

theorem mem_upsertAllBy (key : α → κ) {l xs : List α} {y : α}
    (h : y ∈ upsertAllBy key l xs) : y ∈ l ∨ y ∈ xs := by
  induction xs generalizing l with
  | nil => exact Or.inl h
  | cons a t ih =>
      simp only [upsertAllBy, List.foldl_cons] at h
      rcases ih h with h' | h'
      · rcases mem_upsertBy key h' with h'' | h''
        · exact Or.inr (by simp [h''])
        · exact Or.inl h''
      · exact Or.inr (List.mem_cons_of_mem _ h')

theorem lookupBy_upsertBy (key : α → κ) (l : List α) (a : α) (k : κ) :
    lookupBy key (upsertBy key l a) k =
      if k = key a then some a else lookupBy key l k := by
  induction l with
  | nil =>
      by_cases h : k = key a
      · simp only [upsertBy, lookupBy, if_pos h, if_pos h.symm]
      · have h' : ¬ (key a = k) := fun hh => h hh.symm
        simp only [upsertBy, lookupBy, if_neg h, if_neg h']
  | cons x xs ih =>
      simp only [upsertBy]
      by_cases hx : key x = key a
      · simp only [if_pos hx, lookupBy]
        by_cases h : k = key a
        · simp only [if_pos h, if_pos (h.symm : key a = k)]
        · have h' : ¬ (key a = k) := fun hh => h hh.symm
          have h2 : ¬ (key x = k) := by rw [hx]; exact h'
          simp only [if_neg h, if_neg h', lookupBy, if_neg h2]
          exact lookupBy_replaceAllBy_ne key xs a h
      · simp only [if_neg hx, lookupBy]
        by_cases hk : key x = k
        · have h : ¬ (k = key a) := by rw [← hk]; exact fun hh => hx hh
          simp only [if_pos hk, if_neg h]
        · simp only [if_neg hk]
          exact ih

theorem keysBy_upsertBy_of_mem (key : α → κ) {l : List α} {a : α}
    (h : key a ∈ keysBy key l) : keysBy key (upsertBy key l a) = keysBy key l := by
  induction l with
  | nil => simp [keysBy] at h
  | cons x xs ih =>
      simp only [upsertBy]
      by_cases hx : key x = key a
      · simp only [if_pos hx, keysBy, List.map_cons]
        rw [show List.map key (replaceAllBy key xs a) = keysBy key (replaceAllBy key xs a) from rfl,
          keysBy_replaceAllBy]
        simp only [keysBy]
        rw [hx]
      · simp only [keysBy, List.map_cons, List.mem_cons] at h
        rcases h with h | h
        · exact absurd h.symm hx
        · simp only [if_neg hx, keysBy, List.map_cons]
          rw [show List.map key (upsertBy key xs a) = keysBy key (upsertBy key xs a) from rfl, ih h]
          rfl

theorem keysBy_upsertBy_of_not_mem (key : α → κ) {l : List α} {a : α}
    (h : key a ∉ keysBy key l) : keysBy key (upsertBy key l a) = keysBy key l ++ [key a] := by
  induction l with
  | nil => rfl
  | cons x xs ih =>
      simp only [keysBy, List.map_cons, List.mem_cons] at h
      push_neg at h
      simp only [upsertBy]
      by_cases hx : key x = key a
      · exact absurd hx.symm h.1
      · simp only [if_neg hx, keysBy, List.map_cons, List.cons_append]
        rw [show List.map key (upsertBy key xs a) = keysBy key (upsertBy key xs a) from rfl, ih h.2]
        rfl

theorem mem_keysBy_upsertBy (key : α → κ) {l : List α} {k : κ} (a : α)
    (h : k ∈ keysBy key l) : k ∈ keysBy key (upsertBy key l a) := by
  by_cases hm : key a ∈ keysBy key l
  · rw [keysBy_upsertBy_of_mem key hm]; exact h
  · rw [keysBy_upsertBy_of_not_mem key hm]; exact List.mem_append_left _ h

theorem self_mem_keysBy_upsertBy (key : α → κ) (l : List α) (a : α) :
    key a ∈ keysBy key (upsertBy key l a) := by
  by_cases hm : key a ∈ keysBy key l
  · rw [keysBy_upsertBy_of_mem key hm]; exact hm
  · rw [keysBy_upsertBy_of_not_mem key hm]; exact List.mem_append_right _ (by simp)

theorem mem_keysBy_upsertAllBy (key : α → κ) {l : List α} {k : κ} (xs : List α)
    (h : k ∈ keysBy key l) : k ∈ keysBy key (upsertAllBy key l xs) := by
  induction xs generalizing l with
  | nil => exact h
  | cons a t ih =>
      simp only [upsertAllBy, List.foldl_cons]
      exact ih (mem_keysBy_upsertBy key a h)

theorem all_mem_keysBy_upsertAllBy (key : α → κ) (l : List α) (xs : List α) :
    ∀ x ∈ xs, key x ∈ keysBy key (upsertAllBy key l xs) := by
  induction xs generalizing l with
  | nil => intro x hx; simp at hx
  | cons a t ih =>
      intro x hx
      simp only [List.mem_cons] at hx
      simp only [upsertAllBy, List.foldl_cons]
      rcases hx with hx | hx
      · subst hx
        exact mem_keysBy_upsertAllBy key t (self_mem_keysBy_upsertBy key l x)
      · exact ih (upsertBy key l a) x hx

theorem keysBy_upsertAllBy_of_covered (key : α → κ) {l xs : List α}
    (h : ∀ x ∈ xs, key x ∈ keysBy key l) :
    keysBy key (upsertAllBy key l xs) = keysBy key l := by
  induction xs generalizing l with
  | nil => rfl
  | cons a t ih =>
      simp only [upsertAllBy, List.foldl_cons]
      have ha : key a ∈ keysBy key l := h a (by simp)
      have hk := keysBy_upsertBy_of_mem key ha
      have step := ih (l := upsertBy key l a) (fun x hx => by rw [hk]; exact h x (by simp [hx]))
      simp only [upsertAllBy] at step
      rw [step, hk]

theorem WFBy_upsertBy (key : α → κ) {l : List α} (a : α) (h : WFBy key l) :
    WFBy key (upsertBy key l a) := by
  by_cases hm : key a ∈ keysBy key l
  · unfold WFBy; rw [keysBy_upsertBy_of_mem key hm]; exact h
  · unfold WFBy; rw [keysBy_upsertBy_of_not_mem key hm]
    simp only [List.nodup_append, List.nodup_cons, List.nodup_nil]
    exact ⟨h, by simp, by simpa using fun hmem => hm hmem⟩

theorem WFBy_upsertAllBy (key : α → κ) {l : List α} (xs : List α) (h : WFBy key l) :
    WFBy key (upsertAllBy key l xs) := by
  induction xs generalizing l with
  | nil => exact h
  | cons a t ih => exact ih (WFBy_upsertBy key a h)

theorem lastBy_cons (key : α → κ) (a : α) (xs : List α) (k : κ) :
    lastBy key (a :: xs) k =
      oor (lastBy key xs k) (if k = key a then some a else none) := by
  simp only [lastBy, List.reverse_cons]
  rw [lookupBy_append]
  by_cases h : key a = k
  · have h' : k = key a := h.symm
    simp only [lookupBy, if_pos h, if_pos h']
  · have h' : ¬ (k = key a) := fun hh => h hh.symm
    simp only [lookupBy, if_neg h, if_neg h']

theorem lookupBy_upsertAllBy (key : α → κ) (l xs : List α) (k : κ) :
    lookupBy key (upsertAllBy key l xs) k = oor (lastBy key xs k) (lookupBy key l k) := by
  induction xs generalizing l with
  | nil => rfl
  | cons a t ih =>
      simp only [upsertAllBy, List.foldl_cons]
      have step : List.foldl (upsertBy key) (upsertBy key l a) t =
          upsertAllBy key (upsertBy key l a) t := rfl
      rw [step, ih, lookupBy_upsertBy, lastBy_cons, oor_assoc]
      by_cases h : k = key a
      · simp only [if_pos h]
        cases lastBy key t k <;> rfl
      · simp only [if_neg h]
        cases lastBy key t k <;> rfl

theorem lookupBy_none_of_not_mem_keys (key : α → κ) {l : List α} {k : κ}
    (h : k ∉ keysBy key l) : lookupBy key l k = none := by
  induction l with
  | nil => rfl
  | cons x xs ih =>
      simp only [keysBy, List.map_cons, List.mem_cons] at h
      push_neg at h
      have hne : ¬ (key x = k) := fun hh => h.1 hh.symm
      simp only [lookupBy, if_neg hne]
      exact ih h.2

theorem eq_of_keys_lookups (key : α → κ) : ∀ (l₁ l₂ : List α), WFBy key l₁ →
    keysBy key l₁ = keysBy key l₂ →
    (∀ k, lookupBy key l₁ k = lookupBy key l₂ k) → l₁ = l₂ := by
  intro l₁
  induction l₁ with
  | nil =>
      intro l₂ _ hk _
      cases l₂ with
      | nil => rfl
      | cons x xs => simp [keysBy] at hk
  | cons x xs ih =>
      intro l₂ hwf hk hl
      cases l₂ with
      | nil => simp [keysBy] at hk
      | cons y ys =>
          simp only [keysBy, List.map_cons, List.cons.injEq] at hk
          have hxy : x = y := by
            have h1 := hl (key x)
            simp only [lookupBy, if_pos rfl, if_pos hk.1.symm] at h1
            injection h1
          subst hxy
          have hwf' : WFBy key xs := by
            simp only [WFBy, keysBy, List.map_cons, List.nodup_cons] at hwf
            exact hwf.2
          have hnotmem : key x ∉ keysBy key xs := by
            simp only [WFBy, keysBy, List.map_cons, List.nodup_cons] at hwf
            exact hwf.1
          have hnotmem' : key x ∉ keysBy key ys := by
            simp only [keysBy] at hnotmem hk ⊢
            rw [← hk.2]; exact hnotmem
          have htail : ∀ k, lookupBy key xs k = lookupBy key ys k := by
            intro k
            by_cases hkk : k = key x
            · subst hkk
              rw [lookupBy_none_of_not_mem_keys key hnotmem,
                lookupBy_none_of_not_mem_keys key hnotmem']
            · have h1 := hl k
              have hne : ¬ (key x = k) := fun hh => hkk hh.symm
              simp only [lookupBy, if_neg hne] at h1
              exact h1
          rw [ih ys hwf' hk.2 htail]

theorem upsertAllBy_append (key : α → κ) (l xs ys : List α) :
    upsertAllBy key l (xs ++ ys) = upsertAllBy key (upsertAllBy key l xs) ys := by
  simp [upsertAllBy, List.foldl_append]

/-- Core idempotence of the upsert write semantics: re-applying the same
sequence of upserts to a well-formed store is a no-op. -/

theorem upsertAllBy_idem (key : α → κ) (l xs : List α) (h : WFBy key l) :
    upsertAllBy key (upsertAllBy key l xs) xs = upsertAllBy key l xs := by
  apply eq_of_keys_lookups key
  · exact WFBy_upsertAllBy key xs (WFBy_upsertAllBy key xs h)
  · exact keysBy_upsertAllBy_of_covered key (all_mem_keysBy_upsertAllBy key l xs)
  · intro k
    rw [lookupBy_upsertAllBy, lookupBy_upsertAllBy, oor_self_absorb]

theorem entriesAtBy_eq_of_lookupBy (key : α → κ) : ∀ (l : List α), WFBy key l →
    ∀ {k : κ} {x : α}, lookupBy key l k = some x → entriesAtBy key l k = [x] := by
  intro l
  induction l with
  | nil => intro _ k x h; simp [lookupBy] at h
  | cons a t ih =>
      intro hwf k x h
      simp only [lookupBy] at h
      by_cases ha : key a = k
      · rw [if_pos ha] at h
        have hx : a = x := by injection h
        subst hx
        simp only [entriesAtBy, if_pos ha]
        have hnot : key a ∉ keysBy key t := by
          simp only [WFBy, keysBy, List.map_cons, List.nodup_cons] at hwf
          exact hwf.1
        have hz : entriesAtBy key t k = [] := by
          subst ha
          clear ih h hwf
          induction t with
          | nil => rfl
          | cons b s ihs =>
              simp only [keysBy, List.map_cons, List.mem_cons] at hnot
              push_neg at hnot
              have hne : ¬ (key b = key a) := fun hh => hnot.1 hh.symm
              simp only [entriesAtBy, if_neg hne]
              exact ihs hnot.2
        rw [hz]
      · rw [if_neg ha] at h
        have hwf' : WFBy key t := by
          simp only [WFBy, keysBy, List.map_cons, List.nodup_cons] at hwf
          exact hwf.2
        simp only [entriesAtBy, if_neg ha]
        exact ih hwf' h

theorem lookupBy_of_mem_of_WF (key : α → κ) {l : List α} {x : α} (hwf : WFBy key l)
    (h : x ∈ l) : lookupBy key l (key x) = some x := by
  induction l with
  | nil => simp at h
  | cons a t ih =>
      simp only [List.mem_cons] at h
      rcases h with h | h
      · subst h; simp [lookupBy]
      · have hwf' : WFBy key t := by
          simp only [WFBy, keysBy, List.map_cons, List.nodup_cons] at hwf
          exact hwf.2
        have hnot : key a ∉ keysBy key t := by
          simp only [WFBy, keysBy, List.map_cons, List.nodup_cons] at hwf
          exact hwf.1
        have hne : ¬ (key a = key x) := by
          intro hh
          exact hnot (by rw [hh]; exact List.mem_map_of_mem key h)
        simp only [lookupBy, if_neg hne]
        exact ih hwf' h

end UpsertByLemmas

/-! ## Lemmas: PeeringDB ix crawler, per-operation facts -/

theorem flatMap_congr_mem {α β : Type} (l : List α) (f g : α → List β)
    (h : ∀ x ∈ l, f x = g x) : l.flatMap f = l.flatMap g := by
  induction l with
  | nil => rfl
  | cons x xs ih =>
      simp only [List.flatMap_cons]
      rw [h x (by simp), ih (fun y hy => h y (by simp [hy]))]

theorem foldl_flatMap_gen {α β σ : Type} (f : β → List α) (g : σ → α → σ) :
    ∀ (l : List β) (b : σ), (l.flatMap f).foldl g b = l.foldl (fun b x => (f x).foldl g b) b := by
  intro l
  induction l with
  | nil => intro b; rfl
  | cons x xs ih =>
      intro b
      simp only [List.flatMap_cons, List.foldl_append, List.foldl_cons]
      exact ih _

theorem ix_qid_lookup_post (s : IxState) (ix : IxRecord) :
    alookup (ix_qid s ix).2.ixid2qid (toString ix.id) = some (ix_qid s ix).1 := by
  cases h : alookup s.ixid2qid (toString ix.id) with
  | some q => simp [ix_qid, h]
  | none =>
      simp only [ix_qid, h]
      exact alookup_append_single_self _ h

theorem ix_qid_hit (s : IxState) (ix : IxRecord) {q : Qid}
    (h : alookup s.ixid2qid (toString ix.id) = some q) : ix_qid s ix = (q, s) := by
  simp [ix_qid, h]

theorem ix_qid_pfx2qid (s : IxState) (ix : IxRecord) :
    (ix_qid s ix).2.pfx2qid = s.pfx2qid := by
  cases h : alookup s.ixid2qid (toString ix.id) with
  | some q => simp [ix_qid, h]
  | none => simp [ix_qid, h]

theorem ix_qid_stmts (s : IxState) (ix : IxRecord) :
    (ix_qid s ix).2.store.stmts = s.store.stmts := by
  cases h : alookup s.ixid2qid (toString ix.id) with
  | some q => simp [ix_qid, h]
  | none => simp [ix_qid, h]

theorem ix_qid_log (s : IxState) (ix : IxRecord) :
    (ix_qid s ix).2.log = s.log := by
  cases h : alookup s.ixid2qid (toString ix.id) with
  | some q => simp [ix_qid, h]
  | none => simp [ix_qid, h]

theorem ix_qid_ixid2qid_mono (s : IxState) (ix : IxRecord) {k : String} {v : Qid}
    (h : alookup s.ixid2qid k = some v) :
    alookup (ix_qid s ix).2.ixid2qid k = some v := by
  cases hm : alookup s.ixid2qid (toString ix.id) with
  | some q => simp [ix_qid, hm, h]
  | none =>
      simp only [ix_qid, hm]
      exact alookup_append_of_some _ h

theorem prefix2qid_lookup_post (s : IxState) (p : String) :
    alookup (prefix2qid s p).2.pfx2qid p = some (prefix2qid s p).1 := by
  cases h : alookup s.pfx2qid p with
  | some q => simp [prefix2qid, h]
  | none =>
      cases hs : alookup (s.store.items.map (fun it => ((it.ns, it.extId), it.qid))) ("prefix", p) with
      | some q =>
          simp only [prefix2qid, h, hs]
          exact alookup_append_single_self _ h
      | none =>
          simp only [prefix2qid, h, hs]
          exact alookup_append_single_self _ h

theorem prefix2qid_hit (s : IxState) (p : String) {q : Qid}
    (h : alookup s.pfx2qid p = some q) : prefix2qid s p = (q, s) := by
  simp [prefix2qid, h]

theorem prefix2qid_ixid2qid (s : IxState) (p : String) :
    (prefix2qid s p).2.ixid2qid = s.ixid2qid := by
  cases h : alookup s.pfx2qid p with
  | some q => simp [prefix2qid, h]
  | none =>
      cases hs : alookup (s.store.items.map (fun it => ((it.ns, it.extId), it.qid))) ("prefix", p) with
      | some q => simp [prefix2qid, h, hs]
      | none => simp [prefix2qid, h, hs]

theorem prefix2qid_stmts (s : IxState) (p : String) :
    (prefix2qid s p).2.store.stmts = s.store.stmts := by
  cases h : alookup s.pfx2qid p with
  | some q => simp [prefix2qid, h]
  | none =>
      cases hs : alookup (s.store.items.map (fun it => ((it.ns, it.extId), it.qid))) ("prefix", p) with
      | some q => simp [prefix2qid, h, hs]
      | none => simp [prefix2qid, h, hs]

theorem prefix2qid_log (s : IxState) (p : String) :
    (prefix2qid s p).2.log = s.log := by
  cases h : alookup s.pfx2qid p with
  | some q => simp [prefix2qid, h]
  | none =>
      cases hs : alookup (s.store.items.map (fun it => ((it.ns, it.extId), it.qid))) ("prefix", p) with
      | some q => simp [prefix2qid, h, hs]
      | none => simp [prefix2qid, h, hs]

theorem prefix2qid_pfx2qid_mono (s : IxState) (p : String) {k : String} {v : Qid}
    (h : alookup s.pfx2qid k = some v) :
    alookup (prefix2qid s p).2.pfx2qid k = some v := by
  cases hm : alookup s.pfx2qid p with
  | some q => simp [prefix2qid, hm, h]
  | none =>
      cases hs : alookup (s.store.items.map (fun it => ((it.ns, it.extId), it.qid))) ("prefix", p) with
      | some q =>
          simp only [prefix2qid, hm, hs]
          exact alookup_append_of_some _ h
      | none =>
          simp only [prefix2qid, hm, hs]
          exact alookup_append_of_some _ h

theorem upsert_statements_ixid2qid (s : IxState) (q : Qid) (l : List WStatement) :
    (upsert_statements s q l).ixid2qid = s.ixid2qid := rfl

theorem upsert_statements_pfx2qid (s : IxState) (q : Qid) (l : List WStatement) :
    (upsert_statements s q l).pfx2qid = s.pfx2qid := rfl

theorem upsert_statements_log (s : IxState) (q : Qid) (l : List WStatement) :
    (upsert_statements s q l).log = s.log := rfl

theorem upsert_statements_items (s : IxState) (q : Qid) (l : List WStatement) :
    (upsert_statements s q l).store.items = s.store.items := rfl

theorem upsert_statements_nextId (s : IxState) (q : Qid) (l : List WStatement) :
    (upsert_statements s q l).store.nextId = s.store.nextId := rfl

theorem upsert_statements_stmts (s : IxState) (q : Qid) (l : List WStatement) :
    (upsert_statements s q l).store.stmts =
      upsertAllBy entryKey s.store.stmts (l.map (fun st => (q, st))) := rfl

theorem doPfx_ixid2qid (env : IxEnv) (lanId : Nat) (ixq : Qid) (s : IxState) (p : String) :
    (doPfx env lanId ixq s p).ixid2qid = s.ixid2qid := by
  unfold doPfx
  rw [upsert_statements_ixid2qid, prefix2qid_ixid2qid]

theorem doPfx_log (env : IxEnv) (lanId : Nat) (ixq : Qid) (s : IxState) (p : String) :
    (doPfx env lanId ixq s p).log = s.log := by
  unfold doPfx
  rw [upsert_statements_log, prefix2qid_log]

theorem doPfx_pfx2qid_mono (env : IxEnv) (lanId : Nat) (ixq : Qid) (s : IxState) (p : String)
    {k : String} {v : Qid} (h : alookup s.pfx2qid k = some v) :
    alookup (doPfx env lanId ixq s p).pfx2qid k = some v := by
  unfold doPfx
  rw [upsert_statements_pfx2qid]
  exact prefix2qid_pfx2qid_mono s p h

theorem doPfx_covers (env : IxEnv) (lanId : Nat) (ixq : Qid) (s : IxState) (p : String) :
    alookup (doPfx env lanId ixq s p).pfx2qid p = some (prefix2qid s p).1 := by
  unfold doPfx
  rw [upsert_statements_pfx2qid]
  exact prefix2qid_lookup_post s p

theorem doPfx_stmts (env : IxEnv) (lanId : Nat) (ixq : Qid) (s : IxState) (p : String) :
    (doPfx env lanId ixq s p).store.stmts =
      upsertAllBy entryKey s.store.stmts
        ((pfxStmts env lanId ixq).map (fun st => (pOf (doPfx env lanId ixq s p) p, st))) := by
  have hp : pOf (doPfx env lanId ixq s p) p = (prefix2qid s p).1 := by
    unfold pOf
    rw [doPfx_covers]
    rfl
  rw [hp]
  unfold doPfx
  rw [upsert_statements_stmts, prefix2qid_stmts]

theorem doPfx_covered_eq (env : IxEnv) (lanId : Nat) (ixq : Qid) (s : IxState) (p : String)
    {q : Qid} (h : alookup s.pfx2qid p = some q) :
    doPfx env lanId ixq s p = upsert_statements s q (pfxStmts env lanId ixq) := by
  unfold doPfx
  rw [prefix2qid_hit s p h]

theorem pairsFold_ixid2qid (env : IxEnv) (ixq : Qid) (pairs : List (Nat × String)) :
    ∀ s : IxState, (pairsFold env ixq s pairs).ixid2qid = s.ixid2qid := by
  induction pairs with
  | nil => intro s; rfl
  | cons pr rest ih =>
      intro s
      simp only [pairsFold, List.foldl_cons]
      rw [show List.foldl (fun s pr => doPfx env pr.1 ixq s pr.2) (doPfx env pr.1 ixq s pr.2) rest =
        pairsFold env ixq (doPfx env pr.1 ixq s pr.2) rest from rfl]
      rw [ih, doPfx_ixid2qid]

theorem pairsFold_log (env : IxEnv) (ixq : Qid) (pairs : List (Nat × String)) :
    ∀ s : IxState, (pairsFold env ixq s pairs).log = s.log := by
  induction pairs with
  | nil => intro s; rfl
  | cons pr rest ih =>
      intro s
      simp only [pairsFold, List.foldl_cons]
      rw [show List.foldl (fun s pr => doPfx env pr.1 ixq s pr.2) (doPfx env pr.1 ixq s pr.2) rest =
        pairsFold env ixq (doPfx env pr.1 ixq s pr.2) rest from rfl]
      rw [ih, doPfx_log]

theorem pairsFold_pfx2qid_mono (env : IxEnv) (ixq : Qid) (pairs : List (Nat × String)) :
    ∀ (s : IxState) {k : String} {v : Qid}, alookup s.pfx2qid k = some v →
      alookup (pairsFold env ixq s pairs).pfx2qid k = some v := by
  induction pairs with
  | nil => intro s k v h; exact h
  | cons pr rest ih =>
      intro s k v h
      simp only [pairsFold, List.foldl_cons]
      rw [show List.foldl (fun s pr => doPfx env pr.1 ixq s pr.2) (doPfx env pr.1 ixq s pr.2) rest =
        pairsFold env ixq (doPfx env pr.1 ixq s pr.2) rest from rfl]
      exact ih _ (doPfx_pfx2qid_mono env pr.1 ixq s pr.2 h)

theorem pairsFold_covers (env : IxEnv) (ixq : Qid) (pairs : List (Nat × String)) :
    ∀ (s : IxState), ∀ pr ∈ pairs, (alookup (pairsFold env ixq s pairs).pfx2qid pr.2).isSome = true := by
  induction pairs with
  | nil => intro s pr h; simp at h
  | cons hd rest ih =>
      intro s pr h
      simp only [List.mem_cons] at h
      simp only [pairsFold, List.foldl_cons]
      rw [show List.foldl (fun s pr => doPfx env pr.1 ixq s pr.2) (doPfx env hd.1 ixq s hd.2) rest =
        pairsFold env ixq (doPfx env hd.1 ixq s hd.2) rest from rfl]
      rcases h with h | h
      · subst h
        have := pairsFold_pfx2qid_mono env ixq rest (doPfx env pr.1 ixq s pr.2)
          (doPfx_covers env pr.1 ixq s pr.2)
        rw [this]
        rfl
      · exact ih _ pr h

theorem pairsFold_stmts (env : IxEnv) (ixq : Qid) (pairs : List (Nat × String)) :
    ∀ s : IxState, (pairsFold env ixq s pairs).store.stmts =
      upsertAllBy entryKey s.store.stmts
        (pairs.flatMap (fun pr =>
          (pfxStmts env pr.1 ixq).map (fun st => (pOf (pairsFold env ixq s pairs) pr.2, st)))) := by
  induction pairs with
  | nil => intro s; rfl
  | cons hd rest ih =>
      intro s
      simp only [pairsFold, List.foldl_cons, List.flatMap_cons]
      rw [show List.foldl (fun s pr => doPfx env pr.1 ixq s pr.2) (doPfx env hd.1 ixq s hd.2) rest =
        pairsFold env ixq (doPfx env hd.1 ixq s hd.2) rest from rfl]
      rw [ih (doPfx env hd.1 ixq s hd.2)]
      rw [doPfx_stmts env hd.1 ixq s hd.2]
      rw [← upsertAllBy_append]
      have hhd : pOf (pairsFold env ixq (doPfx env hd.1 ixq s hd.2) rest) hd.2 =
          pOf (doPfx env hd.1 ixq s hd.2) hd.2 := by
        unfold pOf
        rw [pairsFold_pfx2qid_mono env ixq rest _ (doPfx_covers env hd.1 ixq s hd.2),
          doPfx_covers env hd.1 ixq s hd.2]
      rw [hhd]

theorem update_ix_eq (env : IxEnv) (s : IxState) (ix : IxRecord) :
    update_ix env s ix =
      ((ix_qid { s with log := s.log ++ warnDelta env ix } ix).1,
       pairsFold env (ix_qid { s with log := s.log ++ warnDelta env ix } ix).1
         (upsert_statements (ix_qid { s with log := s.log ++ warnDelta env ix } ix).2
           (ix_qid { s with log := s.log ++ warnDelta env ix } ix).1 (ixStatements env ix))
         (flatPairs ix)) := by
  have hwarn : (if (alookup env.orgid2qid (toString ix.org_id)).isNone
      then { s with log := s.log ++ [orgWarn ix.org_id] } else s) =
      { s with log := s.log ++ warnDelta env ix } := by
    unfold warnDelta
    by_cases h : (alookup env.orgid2qid (toString ix.org_id)).isNone
    · simp [h]
    · simp [h]
  have hflat : ∀ (ixlans : List IxLan) (t : IxState) (q : Qid),
      ixlans.foldl (fun s ixlan => ixlan.lans.foldl (fun s lan =>
        lan.ixpfx_set.foldl (doPfx env ixlan.id q) s) s) t =
      pairsFold env q t (ixlans.flatMap (fun il =>
        il.lans.flatMap (fun lan => lan.ixpfx_set.map (fun p => (il.id, p))))) := by
    intro ixlans t q
    simp only [pairsFold, foldl_flatMap_gen, List.foldl_map]
  unfold update_ix
  rw [hwarn]
  cases hset : ix.ixlan_set with
  | none =>
      simp only [flatPairs, hset, Option.getD, List.flatMap_nil]
      rfl
  | some ixlans =>
      simp only [flatPairs, hset, Option.getD]
      rw [hflat]

theorem cacheLe_refl (s : IxState) : cacheLe s s :=
  ⟨fun _ _ h => h, fun _ _ h => h⟩

theorem cacheLe_trans {s t u : IxState} (h1 : cacheLe s t) (h2 : cacheLe t u) : cacheLe s u :=
  ⟨fun k v h => h2.1 k v (h1.1 k v h), fun k v h => h2.2 k v (h1.2 k v h)⟩

theorem update_ix_log (env : IxEnv) (s : IxState) (ix : IxRecord) :
    (update_ix env s ix).2.log = s.log ++ warnDelta env ix := by
  rw [update_ix_eq]
  simp only
  rw [pairsFold_log, upsert_statements_log, ix_qid_log]

theorem update_ix_ixid_lookup_post (env : IxEnv) (s : IxState) (ix : IxRecord) :
    alookup (update_ix env s ix).2.ixid2qid (toString ix.id) = some (update_ix env s ix).1 := by
  rw [update_ix_eq]
  simp only
  rw [pairsFold_ixid2qid, upsert_statements_ixid2qid]
  exact ix_qid_lookup_post _ ix

theorem update_ix_cache_mono (env : IxEnv) (s : IxState) (ix : IxRecord) :
    cacheLe s (update_ix env s ix).2 := by
  rw [update_ix_eq]
  constructor
  · intro k v h
    simp only
    rw [pairsFold_ixid2qid, upsert_statements_ixid2qid]
    exact ix_qid_ixid2qid_mono _ ix h
  · intro k v h
    simp only
    apply pairsFold_pfx2qid_mono
    rw [upsert_statements_pfx2qid, ix_qid_pfx2qid]
    exact h

theorem update_ix_covered_post (env : IxEnv) (s : IxState) (ix : IxRecord) :
    coveredRec (update_ix env s ix).2 ix := by
  constructor
  · rw [update_ix_ixid_lookup_post]
    rfl
  · intro pr hpr
    rw [update_ix_eq]
    simp only
    exact pairsFold_covers env _ (flatPairs ix) _ pr hpr

theorem coveredRec_mono {s s' : IxState} {ix : IxRecord} (h : coveredRec s ix)
    (hle : cacheLe s s') : coveredRec s' ix := by
  constructor
  · obtain ⟨q, hq⟩ := Option.isSome_iff_exists.mp h.1
    rw [hle.1 _ _ hq]
    rfl
  · intro pr hpr
    obtain ⟨q, hq⟩ := Option.isSome_iff_exists.mp (h.2 pr hpr)
    rw [hle.2 _ _ hq]
    rfl

theorem recEntries_congr (env : IxEnv) {s s' : IxState} (ix : IxRecord)
    (hix : s'.ixid2qid = s.ixid2qid) (hpfx : s'.pfx2qid = s.pfx2qid) :
    recEntries env s' ix = recEntries env s ix := by
  unfold recEntries qOf pOf
  rw [hix, hpfx]

theorem recEntries_stable (env : IxEnv) {s s' : IxState} {ix : IxRecord}
    (hcov : coveredRec s ix) (hle : cacheLe s s') :
    recEntries env s ix = recEntries env s' ix := by
  obtain ⟨q, hq⟩ := Option.isSome_iff_exists.mp hcov.1
  have hq' := hle.1 _ _ hq
  unfold recEntries
  have hqof : qOf s ix = qOf s' ix := by
    unfold qOf
    rw [hq, hq']
  rw [hqof]
  congr 1
  apply flatMap_congr_mem
  intro pr hpr
  obtain ⟨v, hv⟩ := Option.isSome_iff_exists.mp (hcov.2 pr hpr)
  have hv' := hle.2 _ _ hv
  have hpof : pOf s pr.2 = pOf s' pr.2 := by
    unfold pOf
    rw [hv, hv']
  rw [hpof]

theorem update_ix_stmts (env : IxEnv) (s : IxState) (ix : IxRecord) :
    (update_ix env s ix).2.store.stmts =
      upsertAllBy entryKey s.store.stmts (recEntries env (update_ix env s ix).2 ix) := by
  have hq : qOf (update_ix env s ix).2 ix = (update_ix env s ix).1 := by
    unfold qOf
    rw [update_ix_ixid_lookup_post]
    rfl
  conv_lhs => rw [update_ix_eq]
  unfold recEntries
  rw [hq]
  conv_rhs => rw [update_ix_eq]
  simp only
  rw [pairsFold_stmts, upsert_statements_stmts, ix_qid_stmts, ← upsertAllBy_append]

theorem runIx_cons (env : IxEnv) (s : IxState) (r : IxRecord) (rs : List IxRecord) :
    runIx env s (r :: rs) = runIx env (update_ix env s r).2 rs := rfl

theorem runIx_cache_mono (env : IxEnv) (recs : List IxRecord) :
    ∀ s : IxState, cacheLe s (runIx env s recs) := by
  induction recs with
  | nil => intro s; exact cacheLe_refl s
  | cons r rs ih =>
      intro s
      rw [runIx_cons]
      exact cacheLe_trans (update_ix_cache_mono env s r) (ih _)

theorem runIx_covers (env : IxEnv) (recs : List IxRecord) :
    ∀ s : IxState, ∀ r ∈ recs, coveredRec (runIx env s recs) r := by
  induction recs with
  | nil => intro s r h; simp at h
  | cons hd rs ih =>
      intro s r h
      simp only [List.mem_cons] at h
      rw [runIx_cons]
      rcases h with h | h
      · subst h
        exact coveredRec_mono (update_ix_covered_post env s r) (runIx_cache_mono env rs _)
      · exact ih _ r h

theorem runIx_stmts (env : IxEnv) (recs : List IxRecord) :
    ∀ s : IxState, (runIx env s recs).store.stmts =
      upsertAllBy entryKey s.store.stmts (allEntries env (runIx env s recs) recs) := by
  induction recs with
  | nil => intro s; rfl
  | cons r rs ih =>
      intro s
      rw [runIx_cons]
      rw [ih (update_ix env s r).2]
      have hstep := update_ix_stmts env s r
      have hstable : recEntries env (update_ix env s r).2 r =
          recEntries env (runIx env (update_ix env s r).2 rs) r :=
        recEntries_stable env (update_ix_covered_post env s r) (runIx_cache_mono env rs _)
      rw [hstep, hstable, ← upsertAllBy_append]
      rfl

theorem pairsFold_covered_all (env : IxEnv) (ixq : Qid) (pairs : List (Nat × String)) :
    ∀ s : IxState, (∀ pr ∈ pairs, (alookup s.pfx2qid pr.2).isSome = true) →
      (pairsFold env ixq s pairs).pfx2qid = s.pfx2qid ∧
      (pairsFold env ixq s pairs).store.items = s.store.items ∧
      (pairsFold env ixq s pairs).store.nextId = s.store.nextId ∧
      (pairsFold env ixq s pairs).store.stmts =
        upsertAllBy entryKey s.store.stmts
          (pairs.flatMap (fun pr => (pfxStmts env pr.1 ixq).map (fun st => (pOf s pr.2, st)))) := by
  induction pairs with
  | nil => intro s _; exact ⟨rfl, rfl, rfl, rfl⟩
  | cons hd rest ih =>
      intro s hcov
      obtain ⟨q, hq⟩ := Option.isSome_iff_exists.mp (hcov hd (by simp))
      have hstep : doPfx env hd.1 ixq s hd.2 = upsert_statements s q (pfxStmts env hd.1 ixq) :=
        doPfx_covered_eq env hd.1 ixq s hd.2 hq
      have hfold : pairsFold env ixq s (hd :: rest) =
          pairsFold env ixq (upsert_statements s q (pfxStmts env hd.1 ixq)) rest := by
        simp only [pairsFold, List.foldl_cons, hstep]
      have hcov' : ∀ pr ∈ rest,
          (alookup (upsert_statements s q (pfxStmts env hd.1 ixq)).pfx2qid pr.2).isSome = true := by
        intro pr hpr
        rw [upsert_statements_pfx2qid]
        exact hcov pr (by simp [hpr])
      obtain ⟨h1, h2, h3, h4⟩ := ih (upsert_statements s q (pfxStmts env hd.1 ixq)) hcov'
      rw [hfold]
      refine ⟨by rw [h1, upsert_statements_pfx2qid], by rw [h2, upsert_statements_items],
        by rw [h3, upsert_statements_nextId], ?_⟩
      rw [h4, upsert_statements_stmts, List.flatMap_cons, ← upsertAllBy_append]
      have hpof : pOf s hd.2 = q := by
        unfold pOf
        rw [hq]
        rfl
      have hrest : rest.flatMap (fun pr => (pfxStmts env pr.1 ixq).map
            (fun st => (pOf (upsert_statements s q (pfxStmts env hd.1 ixq)) pr.2, st))) =
          rest.flatMap (fun pr => (pfxStmts env pr.1 ixq).map (fun st => (pOf s pr.2, st))) := by
        apply flatMap_congr_mem
        intro pr _
        have : pOf (upsert_statements s q (pfxStmts env hd.1 ixq)) pr.2 = pOf s pr.2 := by
          unfold pOf
          rw [upsert_statements_pfx2qid]
        rw [this]
      rw [hrest, hpof]

theorem update_ix_covered_parts (env : IxEnv) (s : IxState) (ix : IxRecord)
    (hcov : coveredRec s ix) :
    (update_ix env s ix).1 = qOf s ix ∧
    (update_ix env s ix).2.ixid2qid = s.ixid2qid ∧
    (update_ix env s ix).2.pfx2qid = s.pfx2qid ∧
    (update_ix env s ix).2.store.items = s.store.items ∧
    (update_ix env s ix).2.store.nextId = s.store.nextId ∧
    (update_ix env s ix).2.store.stmts =
      upsertAllBy entryKey s.store.stmts (recEntries env s ix) := by
  obtain ⟨q, hq⟩ := Option.isSome_iff_exists.mp hcov.1
  have hq1 : alookup ({ s with log := s.log ++ warnDelta env ix } : IxState).ixid2qid
      (toString ix.id) = some q := hq
  have hhit := ix_qid_hit { s with log := s.log ++ warnDelta env ix } ix hq1
  have hqof : qOf s ix = q := by
    unfold qOf
    rw [hq]
    rfl
  have hpcov : ∀ pr ∈ flatPairs ix,
      (alookup (upsert_statements { s with log := s.log ++ warnDelta env ix } q
        (ixStatements env ix)).pfx2qid pr.2).isSome = true := by
    intro pr hpr
    rw [upsert_statements_pfx2qid]
    exact hcov.2 pr hpr
  obtain ⟨h1, h2, h3, h4⟩ := pairsFold_covered_all env q (flatPairs ix) _ hpcov
  rw [update_ix_eq]
  simp only [hhit]
  refine ⟨hqof.symm, ?_, ?_, ?_, ?_, ?_⟩
  · rw [pairsFold_ixid2qid, upsert_statements_ixid2qid]
  · rw [h1, upsert_statements_pfx2qid]
  · rw [h2, upsert_statements_items]
  · rw [h3, upsert_statements_nextId]
  · rw [h4, upsert_statements_stmts, ← upsertAllBy_append]
    unfold recEntries
    rw [hqof]
    congr 2

theorem allEntries_congr (env : IxEnv) {s s' : IxState} (recs : List IxRecord)
    (hix : s'.ixid2qid = s.ixid2qid) (hpfx : s'.pfx2qid = s.pfx2qid) :
    allEntries env s' recs = allEntries env s recs := by
  unfold allEntries
  apply flatMap_congr_mem
  intro r _
  exact recEntries_congr env r hix hpfx

theorem coveredRec_congr {s s' : IxState} {ix : IxRecord}
    (hix : s'.ixid2qid = s.ixid2qid) (hpfx : s'.pfx2qid = s.pfx2qid)
    (h : coveredRec s ix) : coveredRec s' ix := by
  constructor
  · rw [hix]; exact h.1
  · intro pr hpr; rw [hpfx]; exact h.2 pr hpr

theorem runIx_covered_parts (env : IxEnv) (recs : List IxRecord) :
    ∀ s : IxState, (∀ r ∈ recs, coveredRec s r) →
      (runIx env s recs).ixid2qid = s.ixid2qid ∧
      (runIx env s recs).pfx2qid = s.pfx2qid ∧
      (runIx env s recs).store.items = s.store.items ∧
      (runIx env s recs).store.nextId = s.store.nextId ∧
      (runIx env s recs).store.stmts =
        upsertAllBy entryKey s.store.stmts (allEntries env s recs) := by
  induction recs with
  | nil => intro s _; exact ⟨rfl, rfl, rfl, rfl, rfl⟩
  | cons r rs ih =>
      intro s hcov
      obtain ⟨hq, c1, c2, c3, c4, c5⟩ := update_ix_covered_parts env s r (hcov r (by simp))
      have hcov' : ∀ x ∈ rs, coveredRec (update_ix env s r).2 x := by
        intro x hx
        exact coveredRec_congr c1 c2 (hcov x (by simp [hx]))
      obtain ⟨d1, d2, d3, d4, d5⟩ := ih (update_ix env s r).2 hcov'
      rw [runIx_cons]
      refine ⟨by rw [d1, c1], by rw [d2, c2], by rw [d3, c3], by rw [d4, c4], ?_⟩
      rw [d5, c5]
      rw [allEntries_congr env rs c1 c2]
      rw [← upsertAllBy_append]
      rfl

/-- Applying the ix record loop a second time over the same record set is
a no-op on the Graph Store state and the resolver caches. -/
theorem runIx_idem_parts (env : IxEnv) (s : IxState) (recs : List IxRecord)
    (hwf : WFBy entryKey s.store.stmts) :
    (runIx env (runIx env s recs) recs).store = (runIx env s recs).store ∧
    (runIx env (runIx env s recs) recs).ixid2qid = (runIx env s recs).ixid2qid ∧
    (runIx env (runIx env s recs) recs).pfx2qid = (runIx env s recs).pfx2qid := by
  have hcov : ∀ r ∈ recs, coveredRec (runIx env s recs) r := runIx_covers env recs s
  obtain ⟨d1, d2, d3, d4, d5⟩ := runIx_covered_parts env recs (runIx env s recs) hcov
  have hs1 : (runIx env s recs).store.stmts =
      upsertAllBy entryKey s.store.stmts (allEntries env (runIx env s recs) recs) :=
    runIx_stmts env recs s
  refine ⟨?_, d1, d2⟩
  have hstmts : (runIx env (runIx env s recs) recs).store.stmts = (runIx env s recs).store.stmts := by
    rw [d5, hs1, upsertAllBy_idem entryKey _ _ hwf]
  cases hst : (runIx env (runIx env s recs) recs).store with
  | mk n its st =>
      cases hst' : (runIx env s recs).store with
      | mk n' its' st' =>
          have e1 : n = n' := by
            have := d4
            rw [hst, hst'] at this
            exact this
          have e2 : its = its' := by
            have := d3
            rw [hst, hst'] at this
            exact this
          have e3 : st = st' := by
            have := hstmts
            rw [hst, hst'] at this
            exact this
          rw [e1, e2, e3]

/-! ## Lemmas: BGPKIT as2rel crawler -/

theorem resolvedQid_cache_some {s : IypState} {a : Nat} {q : Qid}
    (h : alookup s.cache a = some q) : resolvedQid s a = some q := by
  unfold resolvedQid
  rw [h]
  rfl

theorem get_node_hit (s : IypState) (typ : String) (a : Nat) {q : Qid}
    (h : alookup s.cache a = some q) : get_node s typ a = (q, s) := by
  simp [get_node, h]

theorem get_node_cache_post (s : IypState) (typ : String) (a : Nat) :
    alookup (get_node s typ a).2.cache a = some (get_node s typ a).1 := by
  cases hc : alookup s.cache a with
  | some q => simp [get_node, hc]
  | none =>
      cases hn : findNode s.nodes typ a with
      | some q =>
          simp only [get_node, hc, hn]
          exact alookup_append_single_self _ hc
      | none =>
          simp only [get_node, hc, hn]
          exact alookup_append_single_self _ hc

theorem get_node_cache_mono (s : IypState) (typ : String) (a : Nat) {k : Nat} {v : Qid}
    (h : alookup s.cache k = some v) : alookup (get_node s typ a).2.cache k = some v := by
  cases hc : alookup s.cache a with
  | some q => simp [get_node, hc, h]
  | none =>
      cases hn : findNode s.nodes typ a with
      | some q =>
          simp only [get_node, hc, hn]
          exact alookup_append_of_some _ h
      | none =>
          simp only [get_node, hc, hn]
          exact alookup_append_of_some _ h

theorem get_node_links (s : IypState) (typ : String) (a : Nat) :
    (get_node s typ a).2.links = s.links := by
  cases hc : alookup s.cache a with
  | some q => simp [get_node, hc]
  | none =>
      cases hn : findNode s.nodes typ a with
      | some q => simp [get_node, hc, hn]
      | none => simp [get_node, hc, hn]

theorem findNode_append_single_ne (nodes : List AsNode) (n : AsNode) (typ : String)
    {b : Nat} (h : ¬ (n.typ = typ ∧ n.asn = b)) :
    findNode (nodes ++ [n]) typ b = findNode nodes typ b := by
  unfold findNode
  rw [List.map_append, List.map_singleton]
  apply alookup_append_single_ne
  intro hh
  apply h
  have h1 : n.typ = typ := congrArg Prod.fst hh
  have h2 : n.asn = b := congrArg Prod.snd hh
  exact ⟨h1, h2⟩

theorem get_node_resolved_other (s : IypState) (a : Nat) {b : Nat} (hne : b ≠ a) :
    resolvedQid (get_node s "AS" a).2 b = resolvedQid s b := by
  cases hc : alookup s.cache a with
  | some q => simp [get_node, hc]
  | none =>
      cases hn : findNode s.nodes "AS" a with
      | some q =>
          simp only [get_node, hc, hn, resolvedQid]
          rw [alookup_append_single_ne _ _ (fun hh => hne hh.symm)]
      | none =>
          simp only [get_node, hc, hn, resolvedQid]
          rw [alookup_append_single_ne _ _ (fun hh => hne hh.symm)]
          rw [findNode_append_single_ne]
          intro hh
          exact hne hh.2.symm

theorem get_node_resolved_post (s : IypState) (a : Nat) :
    resolvedQid (get_node s "AS" a).2 a = some (get_node s "AS" a).1 :=
  resolvedQid_cache_some (get_node_cache_post s "AS" a)

theorem get_node_nextId_mono (s : IypState) (typ : String) (a : Nat) :
    s.nextId ≤ (get_node s typ a).2.nextId := by
  cases hc : alookup s.cache a with
  | some q => simp [get_node, hc]
  | none =>
      cases hn : findNode s.nodes typ a with
      | some q => simp [get_node, hc, hn]
      | none => simp [get_node, hc, hn]

theorem qidFresh_mono {q : Qid} {n m : Nat} (h : qidFresh q n = true) (hle : n ≤ m) :
    qidFresh q m = true := by
  cases q with
  | label _ => simp [qidFresh] at h
  | item k =>
      simp only [qidFresh, decide_eq_true_eq] at h ⊢
      omega

theorem get_node_resolved_created (s : IypState) (a : Nat)
    (hc : alookup s.cache a = none) (hn : findNode s.nodes "AS" a = none) :
    (get_node s "AS" a).1 = Qid.item s.nextId ∧
    (get_node s "AS" a).2.nextId = s.nextId + 1 := by
  simp [get_node, hc, hn]

theorem get_node_inv (s : IypState) (a : Nat) (h : InvAs s) :
    InvAs (get_node s "AS" a).2 := by
  cases hc : alookup s.cache a with
  | some q =>
      rw [get_node_hit s "AS" a hc]
      exact h
  | none =>
      cases hn : findNode s.nodes "AS" a with
      | some q =>
          have hres : ∀ b, resolvedQid (get_node s "AS" a).2 b = resolvedQid s b := by
            intro b
            by_cases hb : b = a
            · subst hb
              rw [get_node_resolved_post]
              have : resolvedQid s b = some q := by
                unfold resolvedQid
                rw [hc, hn]
                rfl
              rw [this]
              simp [get_node, hc, hn, oor]
            · exact get_node_resolved_other s a hb
          have hnext : (get_node s "AS" a).2.nextId = s.nextId := by
            simp [get_node, hc, hn]
          constructor
          · intro b qb hb
            rw [hres b] at hb
            rw [hnext]
            exact h.1 b qb hb
          · intro b c qb qc hb hcq hbc
            rw [hres b] at hb
            rw [hres c] at hcq
            exact h.2 b c qb qc hb hcq hbc
      | none =>
          obtain ⟨hq1, hnext⟩ := get_node_resolved_created s a hc hn
          constructor
          · intro b qb hb
            by_cases hba : b = a
            · subst hba
              rw [get_node_resolved_post, hq1] at hb
              have htmp : Qid.item s.nextId = qb := by injection hb
              have : qb = Qid.item s.nextId := htmp.symm
              subst this
              rw [hnext]
              simp [qidFresh]
            · rw [get_node_resolved_other s a hba] at hb
              exact qidFresh_mono (h.1 b qb hb) (get_node_nextId_mono s "AS" a)
          · intro b c qb qc hb hcq hbc
            by_cases hba : b = a
            · subst hba
              rw [get_node_resolved_post, hq1] at hb
              have htmp2 : Qid.item s.nextId = qb := by injection hb
              have hqb : qb = Qid.item s.nextId := htmp2.symm
              subst hqb
              have hcb : c ≠ b := fun hh => hbc hh.symm
              rw [get_node_resolved_other s b hcb] at hcq
              have := h.1 c qc hcq
              cases qc with
              | label _ => simp [qidFresh] at this
              | item k =>
                  simp only [qidFresh, decide_eq_true_eq] at this
                  intro hh
                  have : Qid.item s.nextId = Qid.item k := hh
                  have hk : s.nextId = k := by injection this
                  omega
            · by_cases hca : c = a
              · subst hca
                rw [get_node_resolved_post, hq1] at hcq
                have htmp3 : Qid.item s.nextId = qc := by injection hcq
                have hqc : qc = Qid.item s.nextId := htmp3.symm
                subst hqc
                rw [get_node_resolved_other s c hba] at hb
                have := h.1 b qb hb
                cases qb with
                | label _ => simp [qidFresh] at this
                | item k =>
                    simp only [qidFresh, decide_eq_true_eq] at this
                    intro hh
                    have : Qid.item k = Qid.item s.nextId := hh
                    have hk : k = s.nextId := by injection this
                    omega
              · rw [get_node_resolved_other s a hba] at hb
                rw [get_node_resolved_other s a hca] at hcq
                exact h.2 b c qb qc hb hcq hbc

theorem cacheLeAs_refl (s : IypState) : cacheLeAs s s := fun _ _ h => h

theorem cacheLeAs_trans {s t u : IypState} (h1 : cacheLeAs s t) (h2 : cacheLeAs t u) :
    cacheLeAs s u := fun k v h => h2 k v (h1 k v h)

theorem add_links_cache (s : IypState) (q : Qid) (stmts : List (String × Qid × AsRef)) :
    (add_links s q stmts).cache = s.cache := rfl

theorem add_links_nodes (s : IypState) (q : Qid) (stmts : List (String × Qid × AsRef)) :
    (add_links s q stmts).nodes = s.nodes := rfl

theorem add_links_nextId (s : IypState) (q : Qid) (stmts : List (String × Qid × AsRef)) :
    (add_links s q stmts).nextId = s.nextId := rfl

theorem add_links_links (s : IypState) (q : Qid) (stmts : List (String × Qid × AsRef)) :
    (add_links s q stmts).links =
      upsertAllBy linkKey s.links (stmts.map (fun st => ⟨q, st.1, st.2.1, st.2.2⟩)) := rfl

theorem update_asn_cache_post (ref : AsRef) (s : IypState) (rel : AsRel) :
    alookup (update_asn ref s rel).2.cache rel.asn1 = some (update_asn ref s rel).1.1 ∧
    alookup (update_asn ref s rel).2.cache rel.asn2 = some (update_asn ref s rel).1.2 := by
  unfold update_asn
  simp only [add_links_cache]
  constructor
  · exact get_node_cache_mono _ "AS" rel.asn2 (get_node_cache_post s "AS" rel.asn1)
  · exact get_node_cache_post _ "AS" rel.asn2

theorem update_asn_cache_mono (ref : AsRef) (s : IypState) (rel : AsRel) :
    cacheLeAs s (update_asn ref s rel).2 := by
  intro k v h
  unfold update_asn
  simp only [add_links_cache]
  exact get_node_cache_mono _ "AS" rel.asn2 (get_node_cache_mono s "AS" rel.asn1 h)

theorem coveredRel_mono {s s' : IypState} {rel : AsRel} (h : coveredRel s rel)
    (hle : cacheLeAs s s') : coveredRel s' rel := by
  constructor
  · obtain ⟨q, hq⟩ := Option.isSome_iff_exists.mp h.1
    rw [hle _ _ hq]
    rfl
  · obtain ⟨q, hq⟩ := Option.isSome_iff_exists.mp h.2
    rw [hle _ _ hq]
    rfl

theorem update_asn_covered_post (ref : AsRef) (s : IypState) (rel : AsRel) :
    coveredRel (update_asn ref s rel).2 rel := by
  obtain ⟨h1, h2⟩ := update_asn_cache_post ref s rel
  exact ⟨by rw [h1]; rfl, by rw [h2]; rfl⟩

theorem relEntries_congr (ref : AsRef) {s s' : IypState} (rel : AsRel)
    (hc : s'.cache = s.cache) : relEntries ref s' rel = relEntries ref s rel := by
  unfold relEntries aOf
  rw [hc]

theorem relEntries_stable (ref : AsRef) {s s' : IypState} {rel : AsRel}
    (hcov : coveredRel s rel) (hle : cacheLeAs s s') :
    relEntries ref s rel = relEntries ref s' rel := by
  obtain ⟨q1, hq1⟩ := Option.isSome_iff_exists.mp hcov.1
  obtain ⟨q2, hq2⟩ := Option.isSome_iff_exists.mp hcov.2
  unfold relEntries aOf
  rw [hq1, hq2, hle _ _ hq1, hle _ _ hq2]

theorem update_asn_links_post (ref : AsRef) (s : IypState) (rel : AsRel) :
    (update_asn ref s rel).2.links =
      upsertAllBy linkKey s.links (relEntries ref (update_asn ref s rel).2 rel) := by
  obtain ⟨h1, h2⟩ := update_asn_cache_post ref s rel
  have ha1 : aOf (update_asn ref s rel).2 rel.asn1 = (update_asn ref s rel).1.1 := by
    unfold aOf
    rw [h1]
    rfl
  have ha2 : aOf (update_asn ref s rel).2 rel.asn2 = (update_asn ref s rel).1.2 := by
    unfold aOf
    rw [h2]
    rfl
  unfold relEntries
  rw [ha1, ha2]
  conv_lhs => unfold update_asn
  simp only [add_links_links, get_node_links]
  rfl

theorem update_asn_covered_parts (ref : AsRef) (s : IypState) (rel : AsRel)
    (hcov : coveredRel s rel) :
    (update_asn ref s rel).1 = (aOf s rel.asn1, aOf s rel.asn2) ∧
    (update_asn ref s rel).2.cache = s.cache ∧
    (update_asn ref s rel).2.nodes = s.nodes ∧
    (update_asn ref s rel).2.nextId = s.nextId ∧
    (update_asn ref s rel).2.links =
      upsertAllBy linkKey s.links (relEntries ref s rel) := by
  obtain ⟨q1, hq1⟩ := Option.isSome_iff_exists.mp hcov.1
  obtain ⟨q2, hq2⟩ := Option.isSome_iff_exists.mp hcov.2
  have hhit1 := get_node_hit s "AS" rel.asn1 hq1
  have hhit2 := get_node_hit s "AS" rel.asn2 hq2
  have ha1 : aOf s rel.asn1 = q1 := by unfold aOf; rw [hq1]; rfl
  have ha2 : aOf s rel.asn2 = q2 := by unfold aOf; rw [hq2]; rfl
  unfold update_asn
  rw [hhit1]
  simp only
  rw [hhit2]
  simp only [add_links_cache, add_links_nodes, add_links_nextId, add_links_links]
  refine ⟨by rw [ha1, ha2], by trivial, by trivial, by trivial, ?_⟩
  unfold relEntries
  rw [ha1, ha2]
  rfl

theorem runAs_cons (ref : AsRef) (s : IypState) (r : AsRel) (rs : List AsRel) :
    runAs ref s (r :: rs) = runAs ref (update_asn ref s r).2 rs := rfl

theorem runAs_cache_mono (ref : AsRef) (rels : List AsRel) :
    ∀ s : IypState, cacheLeAs s (runAs ref s rels) := by
  induction rels with
  | nil => intro s; exact cacheLeAs_refl s
  | cons r rs ih =>
      intro s
      rw [runAs_cons]
      exact cacheLeAs_trans (update_asn_cache_mono ref s r) (ih _)

theorem runAs_covers (ref : AsRef) (rels : List AsRel) :
    ∀ s : IypState, ∀ r ∈ rels, coveredRel (runAs ref s rels) r := by
  induction rels with
  | nil => intro s r h; simp at h
  | cons hd rs ih =>
      intro s r h
      simp only [List.mem_cons] at h
      rw [runAs_cons]
      rcases h with h | h
      · subst h
        exact coveredRel_mono (update_asn_covered_post ref s r) (runAs_cache_mono ref rs _)
      · exact ih _ r h

theorem runAs_links (ref : AsRef) (rels : List AsRel) :
    ∀ s : IypState, (runAs ref s rels).links =
      upsertAllBy linkKey s.links (allRelEntries ref (runAs ref s rels) rels) := by
  induction rels with
  | nil => intro s; rfl
  | cons r rs ih =>
      intro s
      rw [runAs_cons, ih (update_asn ref s r).2]
      have hstep := update_asn_links_post ref s r
      have hstable : relEntries ref (update_asn ref s r).2 r =
          relEntries ref (runAs ref (update_asn ref s r).2 rs) r :=
        relEntries_stable ref (update_asn_covered_post ref s r) (runAs_cache_mono ref rs _)
      rw [hstep, hstable, ← upsertAllBy_append]
      rfl

theorem coveredRel_congr {s s' : IypState} {rel : AsRel} (hc : s'.cache = s.cache)
    (h : coveredRel s rel) : coveredRel s' rel := by
  constructor
  · rw [hc]; exact h.1
  · rw [hc]; exact h.2

theorem allRelEntries_congr (ref : AsRef) {s s' : IypState} (rels : List AsRel)
    (hc : s'.cache = s.cache) : allRelEntries ref s' rels = allRelEntries ref s rels := by
  unfold allRelEntries
  apply flatMap_congr_mem
  intro r _
  exact relEntries_congr ref r hc

theorem runAs_covered_parts (ref : AsRef) (rels : List AsRel) :
    ∀ s : IypState, (∀ r ∈ rels, coveredRel s r) →
      (runAs ref s rels).cache = s.cache ∧
      (runAs ref s rels).nodes = s.nodes ∧
      (runAs ref s rels).nextId = s.nextId ∧
      (runAs ref s rels).links =
        upsertAllBy linkKey s.links (allRelEntries ref s rels) := by
  induction rels with
  | nil => intro s _; exact ⟨rfl, rfl, rfl, rfl⟩
  | cons r rs ih =>
      intro s hcov
      obtain ⟨hq, c1, c2, c3, c4⟩ := update_asn_covered_parts ref s r (hcov r (by simp))
      have hcov' : ∀ x ∈ rs, coveredRel (update_asn ref s r).2 x := by
        intro x hx
        exact coveredRel_congr c1 (hcov x (by simp [hx]))
      obtain ⟨d1, d2, d3, d4⟩ := ih (update_asn ref s r).2 hcov'
      rw [runAs_cons]
      refine ⟨by rw [d1, c1], by rw [d2, c2], by rw [d3, c3], ?_⟩
      rw [d4, c4, allRelEntries_congr ref rs c1, ← upsertAllBy_append]
      rfl

/-- Applying the as2rel record loop a second time over the same record
set is a no-op on the IYP store state. -/
theorem runAs_idem (ref : AsRef) (s : IypState) (rels : List AsRel)
    (hwf : WFBy linkKey s.links) :
    runAs ref (runAs ref s rels) rels = runAs ref s rels := by
  have hcov : ∀ r ∈ rels, coveredRel (runAs ref s rels) r := runAs_covers ref rels s
  obtain ⟨d1, d2, d3, d4⟩ := runAs_covered_parts ref rels (runAs ref s rels) hcov
  have hs1 : (runAs ref s rels).links =
      upsertAllBy linkKey s.links (allRelEntries ref (runAs ref s rels) rels) :=
    runAs_links ref rels s
  have hlinks : (runAs ref (runAs ref s rels) rels).links = (runAs ref s rels).links := by
    rw [d4, hs1, upsertAllBy_idem linkKey _ _ hwf]
  cases hst : runAs ref (runAs ref s rels) rels with
  | mk n nodes links cache =>
      cases hst' : runAs ref s rels with
      | mk n' nodes' links' cache' =>
          have e1 : n = n' := by have := d3; rw [hst, hst'] at this; exact this
          have e2 : nodes = nodes' := by have := d2; rw [hst, hst'] at this; exact this
          have e3 : links = links' := by have := hlinks; rw [hst, hst'] at this; exact this
          have e4 : cache = cache' := by have := d1; rw [hst, hst'] at this; exact this
          rw [e1, e2, e3, e4]

/-! ## Lemmas: control-flow models -/

theorem runAsOk_out : ∀ (rels : List AsRel) (o : AsOut),
    runAsOk o rels =
      { processed := o.processed + rels.length, errored := o.errored,
        linked := o.linked ++ rels } := by
  intro rels
  induction rels with
  | nil => intro o; simp [runAsOk]
  | cons r rs ih =>
      intro o
      show runAsOk (update_asnF false o r) rs = _
      rw [ih]
      simp only [update_asnF, List.length_cons, List.append_assoc, List.singleton_append,
        AsOut.mk.injEq]
      exact ⟨by omega, by trivial, by trivial⟩

theorem runAsFGo_out : ∀ (rels : List AsRel) (k : Nat) (o : AsOut) (h : k < rels.length),
    runAsFGo k o rels =
      { processed := o.processed + rels.length,
        errored := o.errored ++ [rels.get ⟨k, h⟩],
        linked := o.linked ++ (rels.take k ++ rels.drop (k + 1)) } := by
  intro rels
  induction rels with
  | nil => intro k o h; simp at h
  | cons r rs ih =>
      intro k o h
      cases k with
      | zero =>
          show runAsOk (update_asnF true o r) rs = _
          rw [runAsOk_out]
          simp only [update_asnF, List.length_cons, List.get, List.take, List.drop,
            List.nil_append, AsOut.mk.injEq]
          exact ⟨by omega, by trivial, by trivial⟩
      | succ k' =>
          show runAsFGo k' (update_asnF false o r) rs = _
          have h' : k' < rs.length := by simpa using Nat.lt_of_succ_lt_succ h
          rw [ih k' _ h']
          simp only [update_asnF, List.length_cons, List.get, List.take, List.drop,
            List.append_assoc, List.singleton_append, List.cons_append, AsOut.mk.injEq]
          exact ⟨by omega, by trivial, by trivial⟩

/-- Behaviour of the as2rel record loop with a store-write error injected
at record `k`: exactly one error is reported (for record `k`), every
record is processed, and every other record gets its link written. -/
theorem runAsF_out (rels : List AsRel) (k : Nat) (h : k < rels.length) :
    runAsF k rels =
      { processed := rels.length,
        errored := [rels.get ⟨k, h⟩],
        linked := rels.take k ++ rels.drop (k + 1) } := by
  unfold runAsF
  rw [runAsFGo_out rels k _ h]
  simp

theorem okRec_update_ixF {r : IxFRec} (h : okRec r) : update_ixF r = none := by
  obtain ⟨_, h2, h3⟩ := h
  unfold update_ixF
  rw [h2]
  have hall : r.lanStatuses.all (fun st => st == 200) = true := by
    rw [List.all_eq_true]
    intro st hst
    simpa using h3 st hst
  rw [hall]

theorem runIxFGo_ok_front : ∀ (pre : List IxFRec) (done : Nat) (rest : List IxFRec),
    (∀ r ∈ pre, okRec r) →
    runIxFGo done (pre ++ rest) = runIxFGo (done + pre.length) rest := by
  intro pre
  induction pre with
  | nil => intro done rest _; simp [List.nil_append]
  | cons r rs ih =>
      intro done rest hok
      have hr := hok r (by simp)
      simp only [List.cons_append, runIxFGo]
      rw [if_neg (by rw [hr.1]; simp)]
      rw [okRec_update_ixF hr]
      show runIxFGo (done + 1) (rs ++ rest) = _
      rw [ih (done + 1) rest (fun x hx => hok x (by simp [hx]))]
      simp only [List.length_cons]
      congr 1
      omega

/-- An uncaught store-write error in the exchange-point crawler aborts
the run: the records before it are processed, the records after it are
not, and no error is reported. -/
theorem ixSubmitAborts (pre : List IxFRec) (r : IxFRec) (post : List IxFRec)
    (hok : ∀ x ∈ pre, okRec x) (hd : r.detailStatus = 200) (hf : r.failSubmit = true) :
    runIxF 200 (pre ++ r :: post) = Except.error (IxAbort.uncaught, pre.length) := by
  unfold runIxF
  rw [if_neg (by simp)]
  rw [runIxFGo_ok_front pre 0 (r :: post) hok]
  simp only [runIxFGo]
  rw [if_neg (by rw [hd]; simp)]
  have hu : update_ixF r = some IxAbort.uncaught := by
    unfold update_ixF
    rw [hf]
  rw [hu]
  simp

theorem is2xx_200 : is2xx 200 = true := by decide

theorem ne_200_of_not_2xx {st : Nat} (h : is2xx st = false) : st ≠ 200 := by
  intro hh
  subst hh
  rw [is2xx_200] at h
  exact absurd h (by simp)

theorem ixListFetchAborts (st : Nat) (recs : List IxFRec) (h : is2xx st = false) :
    runIxF st recs = Except.error (IxAbort.fetchExit, 0) := by
  unfold runIxF
  rw [if_pos (ne_200_of_not_2xx h)]

theorem ixDetailFetchAborts (pre : List IxFRec) (r : IxFRec) (post : List IxFRec)
    (hok : ∀ x ∈ pre, okRec x) (hd : is2xx r.detailStatus = false) :
    runIxF 200 (pre ++ r :: post) = Except.error (IxAbort.fetchExit, pre.length) := by
  unfold runIxF
  rw [if_neg (by simp)]
  rw [runIxFGo_ok_front pre 0 (r :: post) hok]
  simp only [runIxFGo]
  rw [if_pos (ne_200_of_not_2xx hd)]
  simp

theorem ixLanFetchAborts (pre : List IxFRec) (r : IxFRec) (post : List IxFRec)
    (hok : ∀ x ∈ pre, okRec x) (hd : r.detailStatus = 200) (hf : r.failSubmit = false)
    {st : Nat} (hmem : st ∈ r.lanStatuses) (hst : is2xx st = false) :
    runIxF 200 (pre ++ r :: post) = Except.error (IxAbort.fetchExit, pre.length) := by
  unfold runIxF
  rw [if_neg (by simp)]
  rw [runIxFGo_ok_front pre 0 (r :: post) hok]
  simp only [runIxFGo]
  rw [if_neg (by rw [hd]; simp)]
  have hu : update_ixF r = some IxAbort.fetchExit := by
    unfold update_ixF
    rw [hf]
    have hall : r.lanStatuses.all (fun s => s == 200) = false := by
      rw [List.all_eq_false]
      refine ⟨st, hmem, ?_⟩
      have := ne_200_of_not_2xx hst
      simp [this]
    rw [hall]
  rw [hu]
  simp

theorem asFetchAborts (st : Nat) (k : Nat) (rels : List AsRel) (h : is2xx st = false) :
    runAsDriverF st k rels = Except.error () := by
  unfold runAsDriverF
  rw [if_pos (ne_200_of_not_2xx h)]

theorem asSubmitNeverAborts (k : Nat) (rels : List AsRel) :
    runAsDriverF 200 k rels = Except.ok (runAsF k rels) := by
  unfold runAsDriverF
  rw [if_neg (by simp)]

/-! ## Lemmas: statement shapes and provenance predicates -/

theorem orgStmts_ref (env : IxEnv) (ix : IxRecord) :
    ∀ st ∈ orgStmts env ix, st.ref = some (mainRef env) := by
  intro st hst
  unfold orgStmts at hst
  cases h : alookup env.orgid2qid (toString ix.org_id) with
  | some q => rw [h] at hst; simp at hst; rw [hst]
  | none => rw [h] at hst; simp at hst

theorem countryStmts_ref (env : IxEnv) (ix : IxRecord) :
    ∀ st ∈ countryStmts env ix, st.ref = some (mainRef env) := by
  intro st hst
  unfold countryStmts at hst
  by_cases hc : ix.country ≠ ""
  · rw [if_pos hc] at hst
    cases h : alookup env.countryMap ix.country with
    | some q => rw [h] at hst; simp at hst; rw [hst]
    | none => rw [h] at hst; simp at hst
  · rw [if_neg hc] at hst; simp at hst

theorem websiteStmts_ref (env : IxEnv) (ix : IxRecord) :
    ∀ st ∈ websiteStmts env ix, st.ref = some (mainRef env) := by
  intro st hst
  unfold websiteStmts at hst
  by_cases hw : ix.website ≠ ""
  · rw [if_pos hw] at hst; simp at hst; rw [hst]
  · rw [if_neg hw] at hst; simp at hst

theorem statsStmts_ref (env : IxEnv) (ix : IxRecord) :
    ∀ st ∈ statsStmts env ix, st.ref = some (mainRef env) := by
  intro st hst
  unfold statsStmts at hst
  by_cases hu : ix.url_stats ≠ ""
  · rw [if_pos hu] at hst; simp at hst; rw [hst]
  · rw [if_neg hu] at hst; simp at hst

theorem ixStatements_shape (env : IxEnv) (ix : IxRecord) :
    ∀ st ∈ ixStatements env ix,
      st = ⟨get_pid "instance of", Val.q (get_qid "Internet exchange point"), none, []⟩ ∨
      st.ref = some (mainRef env) := by
  intro st hst
  unfold ixStatements at hst
  simp only [List.append_assoc, List.mem_append, List.mem_cons, List.mem_singleton,
    List.not_mem_nil, or_false] at hst
  rcases hst with (h | h) | h | h | h | h
  · exact Or.inl h
  · subst h; exact Or.inr rfl
  · exact Or.inr (orgStmts_ref env ix st h)
  · exact Or.inr (countryStmts_ref env ix st h)
  · exact Or.inr (websiteStmts_ref env ix st h)
  · exact Or.inr (statsStmts_ref env ix st h)

theorem pfxStmts_ref (env : IxEnv) (lanId : Nat) (q : Qid) :
    ∀ st ∈ pfxStmts env lanId q, st.ref = some (pfxRef env lanId) := by
  intro st hst
  unfold pfxStmts at hst
  simp only [List.mem_cons, List.mem_singleton, List.not_mem_nil] at hst
  rcases hst with h | h | h
  · rw [h]
  · rw [h]
  · simp at h

theorem pitOk_mainRef (env : IxEnv) {st : WStatement} (h : st.ref = some (mainRef env)) :
    pitOk env.today st = true := by
  cases st with
  | mk pid target ref quals =>
      simp only at h
      subst h
      simp [pitOk, mainRef, get_pid]

theorem pitOk_pfxRef (env : IxEnv) (lanId : Nat) {st : WStatement}
    (h : st.ref = some (pfxRef env lanId)) : pitOk env.today st = true := by
  cases st with
  | mk pid target ref quals =>
      simp only at h
      subst h
      simp [pitOk, pfxRef, get_pid]

theorem prov_mainRef (env : IxEnv) {st : WStatement} (h : st.ref = some (mainRef env)) :
    stmtProvenanced st = true := by
  cases st with
  | mk pid target ref quals =>
      simp only at h
      subst h
      simp [stmtProvenanced, mainRef, hasRefClaim, get_pid]

theorem prov_pfxRef (env : IxEnv) (lanId : Nat) {st : WStatement}
    (h : st.ref = some (pfxRef env lanId)) : stmtProvenanced st = true := by
  cases st with
  | mk pid target ref quals =>
      simp only at h
      subst h
      simp [stmtProvenanced, pfxRef, hasRefClaim, get_pid]

theorem ixItemStmts_pitOk (today : Nat) (ix : IxRecord) :
    ∀ st ∈ ixItemStmts ix, pitOk today st = true := by
  intro st hst
  unfold ixItemStmts at hst
  simp only [List.mem_cons, List.mem_singleton, List.not_mem_nil] at hst
  rcases hst with h | h | h
  · rw [h]; simp [pitOk]
  · rw [h]; simp [pitOk]
  · simp at h

theorem ixItemStmts_exempt (ix : IxRecord) :
    ∀ st ∈ ixItemStmts ix, provExempt st = true := by
  intro st hst
  unfold ixItemStmts at hst
  simp only [List.mem_cons, List.mem_singleton, List.not_mem_nil] at hst
  rcases hst with h | h | h
  · rw [h]; simp [provExempt, get_pid, get_qid]
  · rw [h]; simp [provExempt, get_pid, get_qid]
  · simp at h

theorem mem_allEntries {env : IxEnv} {s : IxState} {recs : List IxRecord}
    {e : Qid × WStatement} (h : e ∈ allEntries env s recs) :
    ∃ r ∈ recs, e.2 ∈ ixStatements env r ∨
      ∃ pr ∈ flatPairs r, e.2 ∈ pfxStmts env pr.1 (qOf s r) := by
  unfold allEntries at h
  rw [List.mem_flatMap] at h
  obtain ⟨r, hr, hmem⟩ := h
  refine ⟨r, hr, ?_⟩
  unfold recEntries at hmem
  rw [List.mem_append] at hmem
  rcases hmem with hmem | hmem
  · rw [List.mem_map] at hmem
    obtain ⟨st, hst, hse⟩ := hmem
    left
    rw [← hse]
    exact hst
  · rw [List.mem_flatMap] at hmem
    obtain ⟨pr, hpr, hmem⟩ := hmem
    rw [List.mem_map] at hmem
    obtain ⟨st, hst, hse⟩ := hmem
    right
    refine ⟨pr, hpr, ?_⟩
    rw [← hse]
    exact hst

theorem mem_allRelEntries {ref : AsRef} {s : IypState} {rels : List AsRel} {l : Link}
    (h : l ∈ allRelEntries ref s rels) : l.ref = ref := by
  unfold allRelEntries at h
  rw [List.mem_flatMap] at h
  obtain ⟨r, _, hmem⟩ := h
  unfold relEntries at hmem
  simp only [List.mem_singleton] at hmem
  rw [hmem]

theorem orgStmts_pid (env : IxEnv) (ix : IxRecord) :
    ∀ st ∈ orgStmts env ix, st.pid = get_pid "managed by" := by
  intro st hst
  unfold orgStmts at hst
  cases h : alookup env.orgid2qid (toString ix.org_id) with
  | some q => rw [h] at hst; simp at hst; rw [hst]
  | none => rw [h] at hst; simp at hst

theorem countryStmts_pid (env : IxEnv) (ix : IxRecord) :
    ∀ st ∈ countryStmts env ix, st.pid = get_pid "country" := by
  intro st hst
  unfold countryStmts at hst
  by_cases hc : ix.country ≠ ""
  · rw [if_pos hc] at hst
    cases h : alookup env.countryMap ix.country with
    | some q => rw [h] at hst; simp at hst; rw [hst]
    | none => rw [h] at hst; simp at hst
  · rw [if_neg hc] at hst; simp at hst

theorem websiteStmts_pid (env : IxEnv) (ix : IxRecord) :
    ∀ st ∈ websiteStmts env ix, st.pid = get_pid "website" := by
  intro st hst
  unfold websiteStmts at hst
  by_cases hw : ix.website ≠ ""
  · rw [if_pos hw] at hst; simp at hst; rw [hst]
  · rw [if_neg hw] at hst; simp at hst

theorem statsStmts_pid (env : IxEnv) (ix : IxRecord) :
    ∀ st ∈ statsStmts env ix, st.pid = get_pid "website" := by
  intro st hst
  unfold statsStmts at hst
  by_cases hu : ix.url_stats ≠ ""
  · rw [if_pos hu] at hst; simp at hst; rw [hst]
  · rw [if_neg hu] at hst; simp at hst

theorem orgStmts_none {env : IxEnv} {ix : IxRecord}
    (h : alookup env.orgid2qid (toString ix.org_id) = none) : orgStmts env ix = [] := by
  unfold orgStmts
  rw [h]

theorem countryStmts_none {env : IxEnv} {ix : IxRecord}
    (h : ix.country = "" ∨ alookup env.countryMap ix.country = none) :
    countryStmts env ix = [] := by
  unfold countryStmts
  rcases h with h | h
  · rw [if_neg (by simp [h])]
  · by_cases hc : ix.country ≠ ""
    · rw [if_pos hc, h]
    · rw [if_neg hc]

/-- With no resolvable organization, no statement built for the IX node
uses the managed-by property. -/
theorem ixStatements_no_managed_by {env : IxEnv} {ix : IxRecord}
    (horg : alookup env.orgid2qid (toString ix.org_id) = none) :
    ∀ st ∈ ixStatements env ix, st.pid ≠ get_pid "managed by" := by
  intro st hst
  unfold ixStatements at hst
  rw [orgStmts_none horg] at hst
  simp only [List.append_assoc, List.append_nil, List.nil_append, List.mem_append,
    List.mem_cons, List.mem_singleton, List.not_mem_nil, or_false] at hst
  rcases hst with (h | h) | h | h | h
  · rw [h]; simp [get_pid]
  · rw [h]; simp [get_pid]
  · rw [countryStmts_pid env ix st h]; simp [get_pid]
  · rw [websiteStmts_pid env ix st h]; simp [get_pid]
  · rw [statsStmts_pid env ix st h]; simp [get_pid]

/-- With an empty or unresolvable country code, no statement built for
the IX node uses the country property. -/
theorem ixStatements_no_country {env : IxEnv} {ix : IxRecord}
    (h : ix.country = "" ∨ alookup env.countryMap ix.country = none) :
    ∀ st ∈ ixStatements env ix, st.pid ≠ get_pid "country" := by
  intro st hst
  unfold ixStatements at hst
  rw [countryStmts_none h] at hst
  simp only [List.append_assoc, List.append_nil, List.nil_append, List.mem_append,
    List.mem_cons, List.mem_singleton, List.not_mem_nil, or_false] at hst
  rcases hst with (h1 | h1) | h1 | h1 | h1
  · rw [h1]; simp [get_pid]
  · rw [h1]; simp [get_pid]
  · rw [orgStmts_pid env ix st h1]; simp [get_pid]
  · rw [websiteStmts_pid env ix st h1]; simp [get_pid]
  · rw [statsStmts_pid env ix st h1]; simp [get_pid]

/-! ## Lemmas: items created during a run -/

theorem prefix2qid_items_mem (s : IxState) (p : String) {it : Item}
    (h : it ∈ (prefix2qid s p).2.store.items) : it ∈ s.store.items ∨ it.stmts = [] := by
  revert h
  cases hc : alookup s.pfx2qid p with
  | some q => simp [prefix2qid, hc]; intro h; exact Or.inl h
  | none =>
      cases hs : alookup (s.store.items.map (fun x => ((x.ns, x.extId), x.qid))) ("prefix", p) with
      | some q =>
          simp only [prefix2qid, hc, hs]
          intro h
          exact Or.inl h
      | none =>
          simp only [prefix2qid, hc, hs]
          intro h
          simp only [List.mem_append, List.mem_singleton] at h
          rcases h with h | h
          · exact Or.inl h
          · rw [h]
            exact Or.inr rfl

theorem ix_qid_items_mem (s : IxState) (ix : IxRecord) {it : Item}
    (h : it ∈ (ix_qid s ix).2.store.items) :
    it ∈ s.store.items ∨ it.stmts = ixItemStmts ix := by
  revert h
  cases hc : alookup s.ixid2qid (toString ix.id) with
  | some q => simp [ix_qid, hc]; intro h; exact Or.inl h
  | none =>
      simp only [ix_qid, hc]
      intro h
      simp only [List.mem_append, List.mem_singleton] at h
      rcases h with h | h
      · exact Or.inl h
      · rw [h]
        exact Or.inr rfl

theorem doPfx_items_mem (env : IxEnv) (lanId : Nat) (ixq : Qid) (s : IxState) (p : String)
    {it : Item} (h : it ∈ (doPfx env lanId ixq s p).store.items) :
    it ∈ s.store.items ∨ it.stmts = [] := by
  unfold doPfx at h
  rw [upsert_statements_items] at h
  exact prefix2qid_items_mem s p h

theorem pairsFold_items_mem (env : IxEnv) (ixq : Qid) (pairs : List (Nat × String)) :
    ∀ (s : IxState) {it : Item}, it ∈ (pairsFold env ixq s pairs).store.items →
      it ∈ s.store.items ∨ it.stmts = [] := by
  induction pairs with
  | nil => intro s it h; exact Or.inl h
  | cons pr rest ih =>
      intro s it h
      simp only [pairsFold, List.foldl_cons] at h
      rw [show List.foldl (fun s pr => doPfx env pr.1 ixq s pr.2) (doPfx env pr.1 ixq s pr.2) rest =
        pairsFold env ixq (doPfx env pr.1 ixq s pr.2) rest from rfl] at h
      rcases ih _ h with h' | h'
      · exact doPfx_items_mem env pr.1 ixq s pr.2 h'
      · exact Or.inr h'

theorem update_ix_items_mem (env : IxEnv) (s : IxState) (ix : IxRecord) {it : Item}
    (h : it ∈ (update_ix env s ix).2.store.items) :
    it ∈ s.store.items ∨ it.stmts = ixItemStmts ix ∨ it.stmts = [] := by
  rw [update_ix_eq] at h
  simp only at h
  rcases pairsFold_items_mem env _ (flatPairs ix) _ h with h' | h'
  · rw [upsert_statements_items] at h'
    rcases ix_qid_items_mem _ ix h' with h'' | h''
    · exact Or.inl h''
    · exact Or.inr (Or.inl h'')
  · exact Or.inr (Or.inr h')

theorem runIx_items_mem (env : IxEnv) (recs : List IxRecord) :
    ∀ (s : IxState) {it : Item}, it ∈ (runIx env s recs).store.items →
      it ∈ s.store.items ∨ (∃ r ∈ recs, it.stmts = ixItemStmts r) ∨ it.stmts = [] := by
  induction recs with
  | nil => intro s it h; exact Or.inl h
  | cons r rs ih =>
      intro s it h
      rw [runIx_cons] at h
      rcases ih _ h with h' | h' | h'
      · rcases update_ix_items_mem env s r h' with h'' | h'' | h''
        · exact Or.inl h''
        · exact Or.inr (Or.inl ⟨r, by simp, h''⟩)
        · exact Or.inr (Or.inr h'')
      · obtain ⟨x, hx, hxs⟩ := h'
        exact Or.inr (Or.inl ⟨x, by simp [hx], hxs⟩)
      · exact Or.inr (Or.inr h')

/-! ## Lemmas: links attached to a node -/

theorem srcLinks_replaceAllBy_ne (xs : List Link) (e : Link) {q : Qid} (h : ¬ (e.src = q)) :
    srcLinks (replaceAllBy linkKey xs e) q = srcLinks xs q := by
  induction xs with
  | nil => rfl
  | cons x l ih =>
      simp only [replaceAllBy, List.map_cons] at *
      by_cases hx : linkKey x = linkKey e
      · have hxs : x.src = e.src := congrArg Prod.fst hx
        simp only [if_pos hx, srcLinks, List.filter_cons] at *
        have he : (decide (e.src = q)) = false := by simp [h]
        have hxq : (decide (x.src = q)) = false := by rw [hxs]; simp [h]
        rw [he, hxq]
        simp only [if_neg (by simp : ¬ (false = true))]
        exact ih
      · simp only [if_neg hx, srcLinks, List.filter_cons] at *
        cases hpq : decide (x.src = q) with
        | true => simp only [if_pos rfl]; rw [ih]
        | false => simp only [if_neg (by simp : ¬ (false = true))]; exact ih

theorem srcLinks_upsertBy_ne (l : List Link) (e : Link) {q : Qid} (h : ¬ (e.src = q)) :
    srcLinks (upsertBy linkKey l e) q = srcLinks l q := by
  induction l with
  | nil =>
      simp only [upsertBy, srcLinks, List.filter_cons]
      have he : (decide (e.src = q)) = false := by simp [h]
      rw [he]
      simp
  | cons x xs ih =>
      simp only [upsertBy]
      by_cases hx : linkKey x = linkKey e
      · have hxs : x.src = e.src := congrArg Prod.fst hx
        simp only [if_pos hx, srcLinks, List.filter_cons]
        have he : (decide (e.src = q)) = false := by simp [h]
        have hxq : (decide (x.src = q)) = false := by rw [hxs]; simp [h]
        rw [he, hxq]
        simp only [if_neg (by simp : ¬ (false = true))]
        exact srcLinks_replaceAllBy_ne xs e h
      · simp only [if_neg hx, srcLinks, List.filter_cons] at *
        cases hpq : decide (x.src = q) with
        | true => simp only [if_pos rfl]; rw [ih]
        | false => simp only [if_neg (by simp : ¬ (false = true))]; exact ih

theorem upsertAllBy_single {α κ : Type} [DecidableEq κ] (key : α → κ) (l : List α) (e : α) :
    upsertAllBy key l [e] = upsertBy key l e := rfl

/-- The empty IYP store satisfies the resolver invariant. -/
theorem initIyp_inv : InvAs initIyp := by
  constructor
  · intro a q h
    simp [resolvedQid, initIyp, alookup, findNode, oor] at h
  · intro a b qa qb ha hb hab
    simp [resolvedQid, initIyp, alookup, findNode, oor] at ha

theorem runAsEGo_submit : ∀ (rels : List AsRel) (k : Nat) (o : AsOut),
    runAsEGo k AsFail.submitRaises o rels = Except.ok (runAsFGo k o rels) := by
  intro rels
  induction rels with
  | nil => intro k o; simp [runAsEGo, runAsFGo]
  | cons r rs ih =>
      intro k o
      cases k with
      | zero =>
          simp only [runAsEGo, runAsFGo, update_asnE, update_asnF]
      | succ k' =>
          simp only [runAsEGo, runAsFGo]
          exact ih k' _

/-- In the unified error model, a statement-submission error does not
end the as2rel run: the loop completes with the output of `runAsF`. -/
theorem runAsE_submit (rels : List AsRel) (k : Nat) :
    runAsE k AsFail.submitRaises rels = Except.ok (runAsF k rels) :=
  runAsEGo_submit rels k _

theorem runAsEGo_create_out : ∀ (rels : List AsRel) (k : Nat) (o : AsOut),
    k < rels.length →
    runAsEGo k AsFail.createRaises o rels =
      Except.error
        { processed := o.processed + k, errored := o.errored,
          linked := o.linked ++ rels.take k } := by
  intro rels
  induction rels with
  | nil => intro k o h; simp at h
  | cons r rs ih =>
      intro k o h
      cases k with
      | zero =>
          simp only [runAsEGo, update_asnE]
          congr 1
          cases o with
          | mk p e l => simp [List.take]
      | succ k' =>
          simp only [runAsEGo]
          have h' : k' < rs.length := by simpa using Nat.lt_of_succ_lt_succ h
          rw [ih k' _ h']
          congr 1
          simp only [update_asnF, List.take, List.append_assoc, List.cons_append,
            List.nil_append, AsOut.mk.injEq]
          exact ⟨by omega, by trivial, by trivial⟩

/-- A node-creation error at record `k` aborts the as2rel run: the
records before `k` are processed and linked, the records from `k` on are
not, and no error is reported. -/
theorem runAsE_create_aborts (rels : List AsRel) (k : Nat) (h : k < rels.length) :
    runAsE k AsFail.createRaises rels =
      Except.error
        { processed := k, errored := [], linked := rels.take k } := by
  unfold runAsE
  rw [runAsEGo_create_out rels k _ h]
  simp

/-! ## Claim theorems -/

/-- C1: within one run, after the first call of the identifier resolver
with a given value, every subsequent resolve of the same value — with any
sequence of records processed in between — returns the same Node and
leaves the state unchanged (so zero additional creation requests reach
the Graph Store), both for the PeeringDB IX-id resolver `ix_qid` and for
the BGPKIT ASN resolver `get_node`. -/
theorem claim_C1_resolver_determinism (env : IxEnv) (s : IxState) (r rp : IxRecord)
    (mid : List IxRecord) (hid : rp.id = r.id) (refA : AsRef) (sA : IypState) (v : Nat)
    (midA : List AsRel) :
    (ix_qid (runIx env (ix_qid s r).2 mid) rp).1 = (ix_qid s r).1 ∧
    (ix_qid (runIx env (ix_qid s r).2 mid) rp).2 = runIx env (ix_qid s r).2 mid ∧
    (get_node (runAs refA (get_node sA "AS" v).2 midA) "AS" v).1 = (get_node sA "AS" v).1 ∧
    (get_node (runAs refA (get_node sA "AS" v).2 midA) "AS" v).2 =
      runAs refA (get_node sA "AS" v).2 midA := by
  have h1 : alookup (runIx env (ix_qid s r).2 mid).ixid2qid (toString r.id) =
      some (ix_qid s r).1 :=
    (runIx_cache_mono env mid _).1 _ _ (ix_qid_lookup_post s r)
  have h1' : alookup (runIx env (ix_qid s r).2 mid).ixid2qid (toString rp.id) =
      some (ix_qid s r).1 := by rw [hid]; exact h1
  have hhit := ix_qid_hit _ rp h1'
  have h2 : alookup (runAs refA (get_node sA "AS" v).2 midA).cache v =
      some (get_node sA "AS" v).1 :=
    runAs_cache_mono refA midA _ _ _ (get_node_cache_post sA "AS" v)
  have hhit2 := get_node_hit _ "AS" v h2
  exact ⟨by rw [hhit], by rw [hhit], by rw [hhit2], by rw [hhit2]⟩

theorem claim_C1_witness :
    ixA.id = ixA.id ∧
    (ix_qid (runIx envA (ix_qid initIxState ixA).2 [ixB]) ixA).1 = (ix_qid initIxState ixA).1 :=
  ⟨rfl, (claim_C1_resolver_determinism envA initIxState ixA ixA [ixB] rfl
    (mkAsReference 0) initIyp 64500 [⟨64500, 64501⟩]).1⟩

/-- C6: for an exchange-point record whose organization id has no
resolvable Node, the statement set built for the IX node contains no
managed-by relation, the warning line is printed, and the record is still
processed (the IX node is resolved and returned). -/
theorem claim_C6_missing_org (env : IxEnv) (s : IxState) (ix : IxRecord)
    (horg : alookup env.orgid2qid (toString ix.org_id) = none) :
    (∀ st ∈ ixStatements env ix, st.pid ≠ get_pid "managed by") ∧
    (update_ix env s ix).2.log = s.log ++ [orgWarn ix.org_id] ∧
    alookup (update_ix env s ix).2.ixid2qid (toString ix.id) = some (update_ix env s ix).1 := by
  refine ⟨ixStatements_no_managed_by horg, ?_, update_ix_ixid_lookup_post env s ix⟩
  rw [update_ix_log]
  unfold warnDelta
  rw [horg]
  rfl

theorem claim_C6_witness :
    alookup (mkIxEnv [] [] 0).orgid2qid (toString ixB.org_id) = none ∧
    (update_ix (mkIxEnv [] [] 0) initIxState ixB).2.log =
      initIxState.log ++ [orgWarn ixB.org_id] :=
  ⟨rfl, (claim_C6_missing_org (mkIxEnv [] [] 0) initIxState ixB rfl).2.1⟩

/-- C10: for an exchange-point record whose country code is empty or does
not resolve to a node, the statement set built for the IX node contains
no country link, the only console line possibly printed is the
organization warning (nothing is reported for the country), and the
record is still upserted (the IX node is resolved and returned). -/
theorem claim_C10_missing_country (env : IxEnv) (s : IxState) (ix : IxRecord)
    (h : ix.country = "" ∨ alookup env.countryMap ix.country = none) :
    (∀ st ∈ ixStatements env ix, st.pid ≠ get_pid "country") ∧
    (update_ix env s ix).2.log = s.log ++ warnDelta env ix ∧
    alookup (update_ix env s ix).2.ixid2qid (toString ix.id) = some (update_ix env s ix).1 :=
  ⟨ixStatements_no_country h, update_ix_log env s ix, update_ix_ixid_lookup_post env s ix⟩

theorem claim_C10_witness :
    (ixB.country = "" ∨ alookup envA.countryMap ixB.country = none) ∧
    (update_ix envA initIxState ixB).2.log = initIxState.log ++ warnDelta envA ixB :=
  ⟨by decide, (claim_C10_missing_country envA initIxState ixB (by decide)).2.1⟩

/-- C9 counterexample: the claim says every upsert returns a single
NodeID (the primary node); `update_asn` instead returns a pair of node
ids whose second component is a different node (Node(asn2)), shown here
at the concrete record {asn1 := 64500, asn2 := 64501} on an empty
store. -/
theorem claim_C9_counterexample :
    (update_asn (mkAsReference 0) initIyp ⟨64500, 64501⟩).1 = (Qid.item 0, Qid.item 1) ∧
    Qid.item 0 ≠ Qid.item 1 := by
  exact ⟨by decide, by decide⟩

/-- C9 amended: `update_ix` returns the single IX NodeID (the record's
subject); `update_asn` returns the pair of the two resolved node ids,
whose first component is the primary Node(asn1) and whose second is
Node(asn2), as recorded in the resolver cache. -/
theorem claim_C9_amended (env : IxEnv) (s : IxState) (ix : IxRecord) (ref : AsRef)
    (sA : IypState) (rel : AsRel) :
    alookup (update_ix env s ix).2.ixid2qid (toString ix.id) = some (update_ix env s ix).1 ∧
    alookup (update_asn ref sA rel).2.cache rel.asn1 = some (update_asn ref sA rel).1.1 ∧
    alookup (update_asn ref sA rel).2.cache rel.asn2 = some (update_asn ref sA rel).1.2 :=
  ⟨update_ix_ixid_lookup_post env s ix, (update_asn_cache_post ref sA rel).1,
    (update_asn_cache_post ref sA rel).2⟩

/-- C7: for an AS-relationship record with distinct ASNs, `update_asn`
resolves or creates both AS nodes, attaches exactly one
PEERS_WITH(Node(asn2)) statement to Node(asn1) carrying the BGPKIT
reference, and attaches nothing to Node(asn2): the links whose source is
Node(asn2) are exactly those already in the store. -/
theorem claim_C7_peers_with (t0 : Nat) (s : IypState) (rel : AsRel)
    (hinv : InvAs s) (hwf : WFBy linkKey s.links) (hne : rel.asn1 ≠ rel.asn2) :
    resolvedQid (update_asn (mkAsReference t0) s rel).2 rel.asn1 =
      some (update_asn (mkAsReference t0) s rel).1.1 ∧
    resolvedQid (update_asn (mkAsReference t0) s rel).2 rel.asn2 =
      some (update_asn (mkAsReference t0) s rel).1.2 ∧
    (update_asn (mkAsReference t0) s rel).1.1 ≠ (update_asn (mkAsReference t0) s rel).1.2 ∧
    entriesAtBy linkKey (update_asn (mkAsReference t0) s rel).2.links
        ((update_asn (mkAsReference t0) s rel).1.1, "PEERS_WITH",
          (update_asn (mkAsReference t0) s rel).1.2) =
      [⟨(update_asn (mkAsReference t0) s rel).1.1, "PEERS_WITH",
        (update_asn (mkAsReference t0) s rel).1.2, mkAsReference t0⟩] ∧
    srcLinks (update_asn (mkAsReference t0) s rel).2.links
        (update_asn (mkAsReference t0) s rel).1.2 =
      srcLinks s.links (update_asn (mkAsReference t0) s rel).1.2 ∧
    (mkAsReference t0).source = "BGPKIT" := by
  have hres1p := get_node_resolved_post s rel.asn1
  have hinv1 : InvAs (get_node s "AS" rel.asn1).2 := get_node_inv s rel.asn1 hinv
  have hinv2 : InvAs (get_node (get_node s "AS" rel.asn1).2 "AS" rel.asn2).2 :=
    get_node_inv _ rel.asn2 hinv1
  have hres1 : resolvedQid (get_node (get_node s "AS" rel.asn1).2 "AS" rel.asn2).2 rel.asn1 =
      some (get_node s "AS" rel.asn1).1 := by
    rw [get_node_resolved_other _ rel.asn2 hne]
    exact hres1p
  have hres2 := get_node_resolved_post (get_node s "AS" rel.asn1).2 rel.asn2
  have hne12 : (get_node s "AS" rel.asn1).1 ≠
      (get_node (get_node s "AS" rel.asn1).2 "AS" rel.asn2).1 :=
    hinv2.2 rel.asn1 rel.asn2 _ _ hres1 hres2 hne
  have hlinks : (update_asn (mkAsReference t0) s rel).2.links =
      upsertBy linkKey s.links
        ⟨(get_node s "AS" rel.asn1).1, "PEERS_WITH",
          (get_node (get_node s "AS" rel.asn1).2 "AS" rel.asn2).1, mkAsReference t0⟩ := by
    show (add_links _ _ _).links = _
    rw [add_links_links, get_node_links]
    rw [show (get_node s "AS" rel.asn1).2.links = s.links from get_node_links s "AS" rel.asn1]
    rfl
  refine ⟨hres1, hres2, hne12, ?_, ?_, rfl⟩
  · have hlook : lookupBy linkKey
        (upsertBy linkKey s.links
          ⟨(get_node s "AS" rel.asn1).1, "PEERS_WITH",
            (get_node (get_node s "AS" rel.asn1).2 "AS" rel.asn2).1, mkAsReference t0⟩)
        ((get_node s "AS" rel.asn1).1, "PEERS_WITH",
          (get_node (get_node s "AS" rel.asn1).2 "AS" rel.asn2).1) = some
        ⟨(get_node s "AS" rel.asn1).1, "PEERS_WITH",
          (get_node (get_node s "AS" rel.asn1).2 "AS" rel.asn2).1, mkAsReference t0⟩ := by
      rw [lookupBy_upsertBy]
      simp [linkKey]
    have hwf' := WFBy_upsertBy linkKey
      (⟨(get_node s "AS" rel.asn1).1, "PEERS_WITH",
        (get_node (get_node s "AS" rel.asn1).2 "AS" rel.asn2).1, mkAsReference t0⟩ : Link) hwf
    have := entriesAtBy_eq_of_lookupBy linkKey _ hwf' hlook
    rw [hlinks]
    exact this
  · rw [hlinks]
    exact srcLinks_upsertBy_ne s.links _ hne12

theorem claim_C7_witness :
    InvAs initIyp ∧ WFBy linkKey initIyp.links ∧ (64500 : Nat) ≠ 64501 ∧
    (update_asn (mkAsReference 7) initIyp ⟨64500, 64501⟩).1.1 ≠
      (update_asn (mkAsReference 7) initIyp ⟨64500, 64501⟩).1.2 :=
  ⟨initIyp_inv, by simp [WFBy, keysBy, initIyp], by decide,
    (claim_C7_peers_with 7 initIyp ⟨64500, 64501⟩ initIyp_inv
      (by simp [WFBy, keysBy, initIyp]) (by decide)).2.2.1⟩

/-- C3: applying upsert twice over an identical record set leaves the
Graph Store in an identical final state, for well-formed stores (no
duplicated statement keys): the second pass of the exchange-point run
changes neither the store nor the resolver caches, and the second pass of
the AS-relationship run is a no-op on the whole state — no duplicate
Node and no duplicate Statement accumulates. -/
theorem claim_C3_idempotent (env : IxEnv) (s : IxState) (recs : List IxRecord)
    (ref : AsRef) (sA : IypState) (rels : List AsRel)
    (hwf : WFBy entryKey s.store.stmts) (hwfA : WFBy linkKey sA.links) :
    ((runIx env (runIx env s recs) recs).store = (runIx env s recs).store ∧
     (runIx env (runIx env s recs) recs).ixid2qid = (runIx env s recs).ixid2qid ∧
     (runIx env (runIx env s recs) recs).pfx2qid = (runIx env s recs).pfx2qid) ∧
    runAs ref (runAs ref sA rels) rels = runAs ref sA rels :=
  ⟨runIx_idem_parts env s recs hwf, runAs_idem ref sA rels hwfA⟩

theorem claim_C3_witness :
    WFBy entryKey initIxState.store.stmts ∧ WFBy linkKey initIyp.links ∧
    runAs (mkAsReference 5) (runAs (mkAsReference 5) initIyp [⟨64500, 64501⟩])
        [⟨64500, 64501⟩] =
      runAs (mkAsReference 5) initIyp [⟨64500, 64501⟩] :=
  ⟨by simp [WFBy, keysBy, initIxState], by simp [WFBy, keysBy, initIyp],
    (claim_C3_idempotent envA initIxState [ixA, ixB] (mkAsReference 5) initIyp
      [⟨64500, 64501⟩] (by simp [WFBy, keysBy, initIxState])
      (by simp [WFBy, keysBy, initIyp])).2⟩

/-- C4 counterexample: the claim says every Statement produced within one
run carries the (identical) point-in-time value; running the
exchange-point upserter on this concrete record stores the bare type
assignment statement, which carries no reference and hence no
point-in-time at all, so not every stored statement carries one. -/
theorem claim_C4_counterexample :
    ((runIx envA initIxState [ixB]).store.stmts.all (fun e => stmtHasPit e.2)) = false := by
  decide

/-- C4 amended: every nonempty Reference attached to any Statement
produced within one run carries the identical point-in-time value, equal
to the start of the day the run began (UTC, midnight-truncated),
computed once at initialization and reused for every Statement including
the per-LAN references built with a different reference URL; however the
bare type-assignment statements carry no reference and the external-ID
statement carries an explicitly empty one. -/
theorem claim_C4_amended (orgs cmap : List (String × Qid)) (t0 : Nat)
    (s : IxState) (recs : List IxRecord) (t0A : Nat) (sA : IypState) (rels : List AsRel)
    (hs1 : ∀ e ∈ s.store.stmts, pitOk (wh_today t0) e.2 = true)
    (hs2 : ∀ it ∈ s.store.items, ∀ st ∈ it.stmts, pitOk (wh_today t0) st = true)
    (hsA : ∀ l ∈ sA.links, l.ref.point_in_time = startOfDay t0A) :
    (∀ e ∈ (runIx (mkIxEnv orgs cmap t0) s recs).store.stmts,
      pitOk (wh_today t0) e.2 = true) ∧
    (∀ it ∈ (runIx (mkIxEnv orgs cmap t0) s recs).store.items,
      ∀ st ∈ it.stmts, pitOk (wh_today t0) st = true) ∧
    (∀ l ∈ (runAs (mkAsReference t0A) sA rels).links,
      l.ref.point_in_time = startOfDay t0A) := by
  refine ⟨?_, ?_, ?_⟩
  · intro e he
    rw [runIx_stmts] at he
    rcases mem_upsertAllBy entryKey he with h | h
    · exact hs1 e h
    · obtain ⟨r, _, h⟩ := mem_allEntries h
      rcases h with h | ⟨pr, _, h⟩
      · rcases ixStatements_shape (mkIxEnv orgs cmap t0) r e.2 h with h' | h'
        · rw [h']; simp [pitOk]
        · exact pitOk_mainRef (mkIxEnv orgs cmap t0) h'
      · exact pitOk_pfxRef (mkIxEnv orgs cmap t0) pr.1 (pfxStmts_ref _ pr.1 _ e.2 h)
  · intro it hit st hst
    rcases runIx_items_mem (mkIxEnv orgs cmap t0) recs s hit with h | ⟨r, _, h⟩ | h
    · exact hs2 it h st hst
    · rw [h] at hst
      exact ixItemStmts_pitOk (wh_today t0) r st hst
    · rw [h] at hst
      simp at hst
  · intro l hl
    rw [runAs_links] at hl
    rcases mem_upsertAllBy linkKey hl with h | h
    · exact hsA l h
    · rw [mem_allRelEntries h]
      rfl

theorem claim_C4_witness :
    (∀ e ∈ initIxState.store.stmts, pitOk (wh_today 100000) e.2 = true) ∧
    (∀ it ∈ initIxState.store.items, ∀ st ∈ it.stmts, pitOk (wh_today 100000) st = true) ∧
    (∀ l ∈ initIyp.links, l.ref.point_in_time = startOfDay 3) ∧
    (∀ l ∈ (runAs (mkAsReference 3) initIyp [⟨64500, 64501⟩]).links,
      l.ref.point_in_time = startOfDay 3) :=
  ⟨by simp [initIxState], by simp [initIxState], by simp [initIyp],
    (claim_C4_amended [] [] 100000 initIxState [ixA] 3 initIyp [⟨64500, 64501⟩]
      (by simp [initIxState]) (by simp [initIxState]) (by simp [initIyp])).2.2⟩

/-- C5 counterexample: the claim says every Statement submitted to the
Graph Store carries a Reference {source, reference URL, point in time};
running the exchange-point upserter on this concrete record stores the
bare type-assignment statement with no reference, so not every stored
statement carries provenance. -/
theorem claim_C5_counterexample :
    ((runIx envA initIxState [ixA]).store.stmts.all (fun e => stmtProvenanced e.2)) = false := by
  decide

/-- C5 amended: every Statement submitted by the upserters carries a full
Reference {source, reference URL, point in time}, except the bare
type-assignment statements of the IX node and the external-ID statement
(which carries an explicitly empty reference); in the BGPKIT upserter
every newly attached link carries the full BGPKIT reference. -/
theorem claim_C5_amended (orgs cmap : List (String × Qid)) (t0 : Nat)
    (s : IxState) (recs : List IxRecord) (t0A : Nat) (sA : IypState) (rels : List AsRel)
    (hs1 : ∀ e ∈ s.store.stmts, (provExempt e.2 || stmtProvenanced e.2) = true)
    (hs2 : ∀ it ∈ s.store.items, ∀ st ∈ it.stmts, (provExempt st || stmtProvenanced st) = true) :
    (∀ e ∈ (runIx (mkIxEnv orgs cmap t0) s recs).store.stmts,
      (provExempt e.2 || stmtProvenanced e.2) = true) ∧
    (∀ it ∈ (runIx (mkIxEnv orgs cmap t0) s recs).store.items,
      ∀ st ∈ it.stmts, (provExempt st || stmtProvenanced st) = true) ∧
    (∀ l ∈ (runAs (mkAsReference t0A) sA rels).links,
      l ∈ sA.links ∨ l.ref = mkAsReference t0A) := by
  refine ⟨?_, ?_, ?_⟩
  · intro e he
    rw [runIx_stmts] at he
    rcases mem_upsertAllBy entryKey he with h | h
    · exact hs1 e h
    · obtain ⟨r, _, h⟩ := mem_allEntries h
      rcases h with h | ⟨pr, _, h⟩
      · rcases ixStatements_shape (mkIxEnv orgs cmap t0) r e.2 h with h' | h'
        · rw [h']; simp [provExempt, get_pid, get_qid]
        · rw [prov_mainRef (mkIxEnv orgs cmap t0) h']
          simp
      · rw [prov_pfxRef (mkIxEnv orgs cmap t0) pr.1 (pfxStmts_ref _ pr.1 _ e.2 h)]
        simp
  · intro it hit st hst
    rcases runIx_items_mem (mkIxEnv orgs cmap t0) recs s hit with h | ⟨r, _, h⟩ | h
    · exact hs2 it h st hst
    · rw [h] at hst
      rw [ixItemStmts_exempt r st hst]
      simp
    · rw [h] at hst
      simp at hst
  · intro l hl
    rw [runAs_links] at hl
    rcases mem_upsertAllBy linkKey hl with h | h
    · exact Or.inl h
    · exact Or.inr (mem_allRelEntries h)

theorem claim_C5_witness :
    (∀ e ∈ initIxState.store.stmts, (provExempt e.2 || stmtProvenanced e.2) = true) ∧
    (∀ it ∈ initIxState.store.items, ∀ st ∈ it.stmts,
      (provExempt st || stmtProvenanced st) = true) ∧
    (∀ l ∈ (runAs (mkAsReference 9) initIyp [⟨64496, 64497⟩]).links,
      l ∈ initIyp.links ∨ l.ref = mkAsReference 9) :=
  ⟨by simp [initIxState], by simp [initIxState],
    (claim_C5_amended [] [] 100000 initIxState [ixB] 9 initIyp [⟨64496, 64497⟩]
      (by simp [initIxState]) (by simp [initIxState])).2.2⟩

/-- C2 counterexample: the claim says a store-write error raised while
processing record k — during statement submission or node creation — is
reported once and records k+1..N are still processed, for both
upserters. Two concrete refutations: in the exchange-point crawler an
error raised by the first record's statement submission propagates, so
with two records the run aborts with zero records processed (instead of
completing both, which would yield `Except.ok 2`); and in the
AS-relationship crawler an error raised by node creation (`get_node`,
outside the try block) at the first of two records likewise aborts with
zero records processed and zero errors reported (instead of completing
both with one reported error). -/
theorem claim_C2_counterexample :
    (runIxF 200 [⟨200, true, []⟩, ⟨200, false, []⟩] =
       Except.error (IxAbort.uncaught, 0) ∧
     runIxF 200 [⟨200, true, []⟩, ⟨200, false, []⟩] ≠ Except.ok 2) ∧
    (runAsE 0 AsFail.createRaises [⟨1, 2⟩, ⟨3, 4⟩] =
       Except.error { processed := 0, errored := [], linked := [] } ∧
     runAsE 0 AsFail.createRaises [⟨1, 2⟩, ⟨3, 4⟩] ≠
       Except.ok { processed := 2, errored := [⟨1, 2⟩], linked := [⟨3, 4⟩] }) := by
  refine ⟨⟨rfl, ?_⟩, ⟨rfl, ?_⟩⟩
  · intro h
    rw [show runIxF 200 [⟨200, true, []⟩, ⟨200, false, []⟩] =
      Except.error (IxAbort.uncaught, 0) from rfl] at h
    exact Except.noConfusion h
  · intro h
    rw [show runAsE 0 AsFail.createRaises [⟨1, 2⟩, ⟨3, 4⟩] =
      Except.error { processed := 0, errored := [], linked := [] } from rfl] at h
    exact Except.noConfusion h

/-- C2 amended: in the AS-relationship upserter a store-write error
raised by statement submission (`add_links`, inside the try block) is
caught: exactly one error is reported (for record k) and records k+1..N
are still processed with their links written, the run completing
normally; but a store-write error raised by node creation (`get_node`,
outside the try block) in the AS-relationship upserter propagates
uncaught and aborts the run with records k..N unprocessed and no error
reported, and in the exchange-point upserter a statement-submission
error likewise propagates and aborts the run. -/
theorem claim_C2_partial_failure (rels : List AsRel) (k : Nat) (h : k < rels.length)
    (rels2 : List AsRel) (k2 : Nat) (h2 : k2 < rels2.length)
    (pre : List IxFRec) (r : IxFRec) (post : List IxFRec)
    (hok : ∀ x ∈ pre, okRec x) (hd : r.detailStatus = 200) (hf : r.failSubmit = true) :
    runAsE k AsFail.submitRaises rels =
      Except.ok
        { processed := rels.length, errored := [rels.get ⟨k, h⟩],
          linked := rels.take k ++ rels.drop (k + 1) } ∧
    runAsE k2 AsFail.createRaises rels2 =
      Except.error
        { processed := k2, errored := [], linked := rels2.take k2 } ∧
    runIxF 200 (pre ++ r :: post) = Except.error (IxAbort.uncaught, pre.length) := by
  refine ⟨?_, runAsE_create_aborts rels2 k2 h2, ixSubmitAborts pre r post hok hd hf⟩
  rw [runAsE_submit, runAsF_out rels k h]

theorem claim_C2_witness :
    (1 : Nat) < ([⟨1, 2⟩, ⟨3, 4⟩, ⟨5, 6⟩] : List AsRel).length ∧
    (1 : Nat) < ([⟨7, 8⟩, ⟨9, 10⟩] : List AsRel).length ∧
    (∀ x ∈ ([⟨200, false, []⟩] : List IxFRec), okRec x) ∧
    runAsE 1 AsFail.submitRaises [⟨1, 2⟩, ⟨3, 4⟩, ⟨5, 6⟩] =
      Except.ok { processed := 3, errored := [⟨3, 4⟩], linked := [⟨1, 2⟩, ⟨5, 6⟩] } ∧
    runAsE 1 AsFail.createRaises [⟨7, 8⟩, ⟨9, 10⟩] =
      Except.error { processed := 1, errored := [], linked := [⟨7, 8⟩] } :=
  ⟨by decide, by decide, by simp [okRec],
    (claim_C2_partial_failure [⟨1, 2⟩, ⟨3, 4⟩, ⟨5, 6⟩] 1 (by decide)
      [⟨7, 8⟩, ⟨9, 10⟩] 1 (by decide)
      [⟨200, false, []⟩] ⟨200, true, [200]⟩ [⟨200, false, []⟩]
      (by simp [okRec]) rfl rfl).1,
    (claim_C2_partial_failure [⟨1, 2⟩, ⟨3, 4⟩, ⟨5, 6⟩] 1 (by decide)
      [⟨7, 8⟩, ⟨9, 10⟩] 1 (by decide)
      [⟨200, false, []⟩] ⟨200, true, [200]⟩ [⟨200, false, []⟩]
      (by simp [okRec]) rfl rfl).2.1⟩

/-- C8 counterexample: the claim says per-record statement failures never
abort the run; in the exchange-point crawler a statement-submission error
at the second of three records aborts the run with only one record
processed, rather than completing all three (which would yield
`Except.ok 3`). -/
theorem claim_C8_counterexample :
    runIxF 200 [⟨200, false, [200]⟩, ⟨200, true, []⟩, ⟨200, false, []⟩] =
      Except.error (IxAbort.uncaught, 1) ∧
    runIxF 200 [⟨200, false, [200]⟩, ⟨200, true, []⟩, ⟨200, false, []⟩] ≠ Except.ok 3 := by
  constructor
  · rfl
  · intro h
    rw [show runIxF 200 [⟨200, false, [200]⟩, ⟨200, true, []⟩, ⟨200, false, []⟩] =
      Except.error (IxAbort.uncaught, 1) from rfl] at h
    exact Except.noConfusion h

/-- C8 amended: a non-2xx HTTP status on any required dataset fetch (the
AS-relationship document, the exchange-point list, a per-item detail, a
per-LAN detail) aborts the whole run immediately; per-record statement
failures never abort the AS-relationship run (it completes over the full
record set), but a statement failure does abort the exchange-point
run. -/
theorem claim_C8_fetch_aborts
    (st1 : Nat) (recs1 : List IxFRec) (h1 : is2xx st1 = false)
    (pre2 : List IxFRec) (r2 : IxFRec) (post2 : List IxFRec)
    (hok2 : ∀ x ∈ pre2, okRec x) (hd2 : is2xx r2.detailStatus = false)
    (pre3 : List IxFRec) (r3 : IxFRec) (post3 : List IxFRec)
    (hok3 : ∀ x ∈ pre3, okRec x) (hd3 : r3.detailStatus = 200) (hf3 : r3.failSubmit = false)
    (st3 : Nat) (hm3 : st3 ∈ r3.lanStatuses) (hs3 : is2xx st3 = false)
    (pre4 : List IxFRec) (r4 : IxFRec) (post4 : List IxFRec)
    (hok4 : ∀ x ∈ pre4, okRec x) (hd4 : r4.detailStatus = 200) (hf4 : r4.failSubmit = true)
    (stA : Nat) (kA : Nat) (relsA : List AsRel) (hA : is2xx stA = false)
    (kB : Nat) (relsB : List AsRel) :
    runIxF st1 recs1 = Except.error (IxAbort.fetchExit, 0) ∧
    runIxF 200 (pre2 ++ r2 :: post2) = Except.error (IxAbort.fetchExit, pre2.length) ∧
    runIxF 200 (pre3 ++ r3 :: post3) = Except.error (IxAbort.fetchExit, pre3.length) ∧
    runIxF 200 (pre4 ++ r4 :: post4) = Except.error (IxAbort.uncaught, pre4.length) ∧
    runAsDriverF stA kA relsA = Except.error () ∧
    runAsDriverF 200 kB relsB = Except.ok (runAsF kB relsB) :=
  ⟨ixListFetchAborts st1 recs1 h1,
   ixDetailFetchAborts pre2 r2 post2 hok2 hd2,
   ixLanFetchAborts pre3 r3 post3 hok3 hd3 hf3 hm3 hs3,
   ixSubmitAborts pre4 r4 post4 hok4 hd4 hf4,
   asFetchAborts stA kA relsA hA,
   asSubmitNeverAborts kB relsB⟩

theorem claim_C8_witness :
    is2xx 503 = false ∧ is2xx 404 = false ∧ is2xx 500 = false ∧
    (500 : Nat) ∈ [500] ∧
    runIxF 503 [] = Except.error (IxAbort.fetchExit, 0) ∧
    runAsDriverF 200 0 [⟨1, 2⟩] = Except.ok (runAsF 0 [⟨1, 2⟩]) :=
  ⟨by decide, by decide, by decide, by decide,
    (claim_C8_fetch_aborts 503 [] (by decide)
      [] ⟨404, false, []⟩ [] (by simp) (by decide)
      [] ⟨200, false, [500]⟩ [] (by simp) rfl rfl 500 (by decide) (by decide)
      [] ⟨200, true, []⟩ [] (by simp) rfl rfl
      404 0 [] (by decide) 0 [⟨1, 2⟩]).1,
    (claim_C8_fetch_aborts 503 [] (by decide)
      [] ⟨404, false, []⟩ [] (by simp) (by decide)
      [] ⟨200, false, [500]⟩ [] (by simp) rfl rfl 500 (by decide) (by decide)
      [] ⟨200, true, []⟩ [] (by simp) rfl rfl
      404 0 [] (by decide) 0 [⟨1, 2⟩]).2.2.2.2.2⟩
